import Mathlib

/-!
Shallow embedding of the aerie tweet-collector classification core
(`collector/database.py`, `collector/classifier.py`) together with proofs
of the stated properties of the record store, the response parser and the
classification orchestrator.
-/

namespace Aerie

/-! ## JSON values and a model of Python `json.loads` -/

/-- A JSON value as produced by `json.loads`.  Numbers keep their source
lexeme (the pipeline never computes with them; only zero-ness matters for
Python truthiness). -/
inductive Json where
  | null
  | bool (b : Bool)
  | num (lexeme : String)
  | str (s : String)
  | arr (elems : List Json)
  | obj (fields : List (String × Json))

mutual

def jsonDecEq : (a b : Json) → Decidable (a = b)
  | Json.null, Json.null => isTrue rfl
  | Json.bool a, Json.bool b =>
    match decEq a b with
    | isTrue h => isTrue (by rw [h])
    | isFalse h => isFalse (fun hh => h (Json.bool.inj hh))
  | Json.num a, Json.num b =>
    match decEq a b with
    | isTrue h => isTrue (by rw [h])
    | isFalse h => isFalse (fun hh => h (Json.num.inj hh))
  | Json.str a, Json.str b =>
    match decEq a b with
    | isTrue h => isTrue (by rw [h])
    | isFalse h => isFalse (fun hh => h (Json.str.inj hh))
  | Json.arr xs, Json.arr ys =>
    match jsonListDecEq xs ys with
    | isTrue h => isTrue (by rw [h])
    | isFalse h => isFalse (fun hh => h (Json.arr.inj hh))
  | Json.obj xs, Json.obj ys =>
    match jsonFieldsDecEq xs ys with
    | isTrue h => isTrue (by rw [h])
    | isFalse h => isFalse (fun hh => h (Json.obj.inj hh))
  | Json.null, Json.bool _ => isFalse (fun h => Json.noConfusion h)
  | Json.null, Json.num _ => isFalse (fun h => Json.noConfusion h)
  | Json.null, Json.str _ => isFalse (fun h => Json.noConfusion h)
  | Json.null, Json.arr _ => isFalse (fun h => Json.noConfusion h)
  | Json.null, Json.obj _ => isFalse (fun h => Json.noConfusion h)
  | Json.bool _, Json.null => isFalse (fun h => Json.noConfusion h)
  | Json.bool _, Json.num _ => isFalse (fun h => Json.noConfusion h)
  | Json.bool _, Json.str _ => isFalse (fun h => Json.noConfusion h)
  | Json.bool _, Json.arr _ => isFalse (fun h => Json.noConfusion h)
  | Json.bool _, Json.obj _ => isFalse (fun h => Json.noConfusion h)
  | Json.num _, Json.null => isFalse (fun h => Json.noConfusion h)
  | Json.num _, Json.bool _ => isFalse (fun h => Json.noConfusion h)
  | Json.num _, Json.str _ => isFalse (fun h => Json.noConfusion h)
  | Json.num _, Json.arr _ => isFalse (fun h => Json.noConfusion h)
  | Json.num _, Json.obj _ => isFalse (fun h => Json.noConfusion h)
  | Json.str _, Json.null => isFalse (fun h => Json.noConfusion h)
  | Json.str _, Json.bool _ => isFalse (fun h => Json.noConfusion h)
  | Json.str _, Json.num _ => isFalse (fun h => Json.noConfusion h)
  | Json.str _, Json.arr _ => isFalse (fun h => Json.noConfusion h)
  | Json.str _, Json.obj _ => isFalse (fun h => Json.noConfusion h)
  | Json.arr _, Json.null => isFalse (fun h => Json.noConfusion h)
  | Json.arr _, Json.bool _ => isFalse (fun h => Json.noConfusion h)
  | Json.arr _, Json.num _ => isFalse (fun h => Json.noConfusion h)
  | Json.arr _, Json.str _ => isFalse (fun h => Json.noConfusion h)
  | Json.arr _, Json.obj _ => isFalse (fun h => Json.noConfusion h)
  | Json.obj _, Json.null => isFalse (fun h => Json.noConfusion h)
  | Json.obj _, Json.bool _ => isFalse (fun h => Json.noConfusion h)
  | Json.obj _, Json.num _ => isFalse (fun h => Json.noConfusion h)
  | Json.obj _, Json.str _ => isFalse (fun h => Json.noConfusion h)
  | Json.obj _, Json.arr _ => isFalse (fun h => Json.noConfusion h)

def jsonListDecEq : (xs ys : List Json) → Decidable (xs = ys)
  | [], [] => isTrue rfl
  | [], _ :: _ => isFalse (fun h => List.noConfusion h)
  | _ :: _, [] => isFalse (fun h => List.noConfusion h)
  | x :: xs, y :: ys =>
    match jsonDecEq x y with
    | isFalse h => isFalse (fun hh => h (List.cons.inj hh).1)
    | isTrue h1 =>
      match jsonListDecEq xs ys with
      | isTrue h2 => isTrue (by rw [h1, h2])
      | isFalse h2 => isFalse (fun hh => h2 (List.cons.inj hh).2)

def jsonFieldsDecEq : (xs ys : List (String × Json)) → Decidable (xs = ys)
  | [], [] => isTrue rfl
  | [], _ :: _ => isFalse (fun h => List.noConfusion h)
  | _ :: _, [] => isFalse (fun h => List.noConfusion h)
  | (k1, v1) :: xs, (k2, v2) :: ys =>
    match decEq k1 k2 with
    | isFalse h => isFalse (fun hh => h (congrArg Prod.fst (List.cons.inj hh).1))
    | isTrue hk =>
      match jsonDecEq v1 v2 with
      | isFalse h => isFalse (fun hh => h (congrArg Prod.snd (List.cons.inj hh).1))
      | isTrue hv =>
        match jsonFieldsDecEq xs ys with
        | isTrue h2 => isTrue (by rw [hk, hv, h2])
        | isFalse h2 => isFalse (fun hh => h2 (List.cons.inj hh).2)

end

instance : DecidableEq Json := jsonDecEq

/-- Whitespace accepted between JSON tokens (as in Python's json module). -/
def isJsonWs (c : Char) : Bool := c = ' ' || c = '\t' || c = '\n' || c = '\r'

def skipWs (cs : List Char) : List Char := cs.dropWhile isJsonWs

def hexVal (c : Char) : Option Nat :=
  if '0' ≤ c && c ≤ '9' then some (c.toNat - 48)
  else if 'a' ≤ c && c ≤ 'f' then some (c.toNat - 87)
  else if 'A' ≤ c && c ≤ 'F' then some (c.toNat - 55)
  else none

/-- Single-character string escapes accepted by `json.loads`. -/
def escChar (c : Char) : Option Char :=
  if c = '"' then some '"'
  else if c = '\\' then some '\\'
  else if c = '/' then some '/'
  else if c = 'b' then some (Char.ofNat 8)
  else if c = 'f' then some (Char.ofNat 12)
  else if c = 'n' then some '\n'
  else if c = 'r' then some '\r'
  else if c = 't' then some '\t'
  else none

/-- Body of a JSON string after the opening quote: returns the decoded
characters and the remainder after the closing quote.  Strict mode: raw
control characters and invalid escapes are rejected, as in `json.loads`. -/
def parseStringBody : List Char → Option (List Char × List Char)
  | [] => none
  | '"' :: rest => some ([], rest)
  | '\\' :: 'u' :: h1 :: h2 :: h3 :: h4 :: rest =>
    match hexVal h1, hexVal h2, hexVal h3, hexVal h4 with
    | some a, some b, some c, some d =>
      (parseStringBody rest).map
        (fun p => (Char.ofNat (((a * 16 + b) * 16 + c) * 16 + d) :: p.1, p.2))
    | _, _, _, _ => none
  | '\\' :: e :: rest =>
    match escChar e with
    | some c => (parseStringBody rest).map (fun p => (c :: p.1, p.2))
    | none => none
  | c :: rest =>
    if c.toNat < 32 then none
    else (parseStringBody rest).map (fun p => (c :: p.1, p.2))

def splitDigits (cs : List Char) : List Char × List Char :=
  (cs.takeWhile Char.isDigit, cs.dropWhile Char.isDigit)

/-- Integer part of a JSON number (`0` or a nonzero-led digit run). -/
def parseIntPart : List Char → Option (List Char × List Char)
  | '0' :: rest => some (['0'], rest)
  | c :: rest =>
    if c.isDigit then
      let p := splitDigits rest
      some (c :: p.1, p.2)
    else none
  | [] => none

/-- Optional fractional part `.digits`; consumed only when complete,
mirroring the json module's NUMBER_RE. -/
def parseFracPart (cs : List Char) : List Char × List Char :=
  match cs with
  | '.' :: rest =>
    let p := splitDigits rest
    if p.1.isEmpty then ([], cs) else ('.' :: p.1, p.2)
  | _ => ([], cs)

/-- Optional exponent part `[eE][+-]?digits`; consumed only when complete. -/
def parseExpPart (cs : List Char) : List Char × List Char :=
  match cs with
  | e :: rest =>
    if e = 'e' || e = 'E' then
      match rest with
      | s :: rest2 =>
        if s = '+' || s = '-' then
          let p := splitDigits rest2
          if p.1.isEmpty then ([], cs) else (e :: s :: p.1, p.2)
        else
          let p := splitDigits rest
          if p.1.isEmpty then ([], cs) else (e :: p.1, p.2)
      | [] => ([], cs)
    else ([], cs)
  | [] => ([], cs)

/-- JSON number starting at the current position (sign, integer part,
optional fraction and exponent); the lexeme is kept verbatim. -/
def parseNumber (cs : List Char) : Option (Json × List Char) :=
  let sp : List Char × List Char :=
    match cs with
    | '-' :: r => (['-'], r)
    | _ => ([], cs)
  match parseIntPart sp.2 with
  | none => none
  | some (ip, cs2) =>
    let fp := parseFracPart cs2
    let ep := parseExpPart fp.2
    some (Json.num (String.mk (sp.1 ++ ip ++ fp.1 ++ ep.1)), ep.2)

mutual

/-- One JSON value at the head of the input (no leading whitespace).
`fuel` only bounds recursion depth; `json_loads` supplies more fuel than
any input of that length can consume. -/
def parseValue : Nat → List Char → Option (Json × List Char)
  | 0, _ => none
  | _ + 1, [] => none
  | fuel + 1, c :: rest =>
    match c, rest with
    | 'n', 'u' :: 'l' :: 'l' :: r => some (Json.null, r)
    | 't', 'r' :: 'u' :: 'e' :: r => some (Json.bool true, r)
    | 'f', 'a' :: 'l' :: 's' :: 'e' :: r => some (Json.bool false, r)
    | 'N', 'a' :: 'N' :: r => some (Json.num "NaN", r)
    | 'I', 'n' :: 'f' :: 'i' :: 'n' :: 'i' :: 't' :: 'y' :: r =>
      some (Json.num "Infinity", r)
    | '-', 'I' :: 'n' :: 'f' :: 'i' :: 'n' :: 'i' :: 't' :: 'y' :: r =>
      some (Json.num "-Infinity", r)
    | '"', r => (parseStringBody r).map (fun p => (Json.str (String.mk p.1), p.2))
    | '\x7b', r => parseObjBody fuel (skipWs r)
    | '[', r => parseArrBody fuel (skipWs r)
    | _, _ => parseNumber (c :: rest)

def parseObjBody : Nat → List Char → Option (Json × List Char)
  | 0, _ => none
  | fuel + 1, cs =>
    match cs with
    | '\x7d' :: rest => some (Json.obj [], rest)
    | _ => parseMembers fuel cs []

def parseMembers : Nat → List Char → List (String × Json) → Option (Json × List Char)
  | 0, _, _ => none
  | fuel + 1, cs, acc =>
    match cs with
    | '"' :: rest =>
      match parseStringBody rest with
      | none => none
      | some (k, r1) =>
        match skipWs r1 with
        | ':' :: r2 =>
          match parseValue fuel (skipWs r2) with
          | none => none
          | some (v, r3) =>
            match skipWs r3 with
            | ',' :: r4 => parseMembers fuel (skipWs r4) (acc ++ [(String.mk k, v)])
            | '\x7d' :: r4 => some (Json.obj (acc ++ [(String.mk k, v)]), r4)
            | _ => none
        | _ => none
    | _ => none

def parseArrBody : Nat → List Char → Option (Json × List Char)
  | 0, _ => none
  | fuel + 1, cs =>
    match cs with
    | ']' :: rest => some (Json.arr [], rest)
    | _ => parseElems fuel cs []

def parseElems : Nat → List Char → List Json → Option (Json × List Char)
  | 0, _, _ => none
  | fuel + 1, cs, acc =>
    match parseValue fuel cs with
    | none => none
    | some (v, r1) =>
      match skipWs r1 with
      | ',' :: r2 => parseElems fuel (skipWs r2) (acc ++ [v])
      | ']' :: r2 => some (Json.arr (acc ++ [v]), r2)
      | _ => none

end

/-- Python `json.loads`: a single JSON document, with trailing input
rejected ("Extra data"). -/
def json_loads (s : String) : Option Json :=
  match parseValue (2 * s.length + 4) (skipWs s.toList) with
  | some (v, rest) => if skipWs rest = [] then some v else none
  | none => none

/-- Python `dict.get` on an object built from a key/value list: duplicate keys
collapse with the last occurrence winning, as in a Python dict literal. -/
def dictGet (fields : List (String × Json)) (key : String) : Option Json :=
  ((fields.filter (fun kv => kv.1 = key)).getLast?).map (fun kv => kv.2)

/-! ## Python truthiness and sqlite binding -/

/-- A JSON number is falsy exactly when its mantissa digits are all zero. -/
def numIsZero (lexeme : String) : Bool :=
  let mantissa := lexeme.toList.takeWhile (fun c => c ≠ 'e' && c ≠ 'E')
  let ds := mantissa.filter Char.isDigit
  !ds.isEmpty && ds.all (fun c => c = '0')

/-- Python truthiness of a decoded JSON value. -/
def jsonTruthy : Json → Bool
  | Json.null => false
  | Json.bool b => b
  | Json.num l => !(numIsZero l)
  | Json.str s => s ≠ ""
  | Json.arr xs => !xs.isEmpty
  | Json.obj fs => !fs.isEmpty

/-- Errors that Python code in the core can raise. -/
inductive PyError where
  | keyError
  | jsonDecodeError
  | attributeError
  | interfaceError
deriving DecidableEq

/-- Binding a Python value to a TEXT column via sqlite3: `None` and `str`
bind directly, `bool`/numbers are ints/floats stored under TEXT affinity
(rendered textually; the number keeps its lexeme as an approximation of
that rendering), containers raise `InterfaceError`. -/
def sqlite_bind_text : Json → Except PyError (Option String)
  | Json.null => Except.ok none
  | Json.str s => Except.ok (some s)
  | Json.bool b => Except.ok (some (if b then "1" else "0"))
  | Json.num l => Except.ok (some l)
  | Json.arr _ => Except.error PyError.interfaceError
  | Json.obj _ => Except.error PyError.interfaceError

/-! ## Response parser (`classify_tweet` in classifier.py) -/

/-- Leftmost match of the pattern used by `re.search(r"\x7b[^\x7d]+\x7d", content)`:
an opening brace, one or more non-closing-brace characters, a closing brace. -/
def braceSearch : List Char → Option (List Char)
  | [] => none
  | c :: rest =>
    if c = '\x7b' then
      match rest.takeWhile (fun d => d ≠ '\x7d'), rest.dropWhile (fun d => d ≠ '\x7d') with
      | s :: span, '\x7d' :: _ => some ('\x7b' :: s :: span ++ ['\x7d'])
      | _, _ => braceSearch rest
    else braceSearch rest

def re_search_brace (s : String) : Option String :=
  (braceSearch s.toList).map String.mk

def strToLower (s : String) : String := String.mk (s.toList.map Char.toLower)

/-- Python `str.strip()`: leading and trailing whitespace removed. -/
def pyStrip (s : String) : String :=
  String.mk (((s.toList.dropWhile Char.isWhitespace).reverse.dropWhile Char.isWhitespace).reverse)

/-- Contiguous-substring occurrence on character lists. -/
def subOccurs (pat : List Char) : List Char → Bool
  | [] => pat.isEmpty
  | c :: rest => pat.isPrefixOf (c :: rest) || subOccurs pat rest

/-- Python `pat in s` substring membership. -/
def strContains (s pat : String) : Bool := subOccurs pat.toList s.toList

/-- The raw outcome of one `client.messages.create` call: either the reply
text or an `anthropic.APIError`. -/
inductive ModelReply where
  | ok (text : String)
  | apiError (msg : String)
deriving DecidableEq

/-- Model of `result.get("approved", True)` / `result.get("reason", ...)` — only a
dict has `.get`; any other decoded value raises `AttributeError`. -/
def result_fields : Json → Except PyError (Json × Json)
  | Json.obj fields =>
    Except.ok ((dictGet fields "approved").getD (Json.bool true),
               (dictGet fields "reason").getD (Json.str "No reason provided"))
  | _ => Except.error PyError.attributeError

/-- The parsing logic of `classify_tweet` applied to the stripped reply
text: whole-text JSON parse, then first brace-delimited substring, then
keyword heuristics, then the default-approve diagnostic.  The second
`json.loads` call is not guarded, so its decode error propagates. -/
def parse_reply (content : String) : Except PyError (Json × Json) :=
  match json_loads content with
  | some v => result_fields v
  | none =>
    match re_search_brace content with
    | some sub =>
      match json_loads sub with
      | some v => result_fields v
      | none => Except.error PyError.jsonDecodeError
    | none =>
      let lower := strToLower content
      if strContains lower "approved" && strContains lower "true" then
        Except.ok (Json.bool true, Json.str "LLM indicated approval")
      else if strContains lower "approved" && strContains lower "false" then
        Except.ok (Json.bool false, Json.str "LLM indicated rejection")
      else
        Except.ok (Json.bool true,
          Json.str ("Could not parse response, defaulting to approved: " ++ content.take 100))

/-- The rest of `classify_tweet` given the outcome of the model call: an
`anthropic.APIError` is caught and degrades to default-approve; a reply
text is stripped and parsed. -/
def classify_tweet (reply : ModelReply) : Except PyError (Json × Json) :=
  match reply with
  | ModelReply.ok text => parse_reply (pyStrip text)
  | ModelReply.apiError msg =>
    Except.ok (Json.bool true, Json.str ("API error, defaulting to approved: " ++ msg.take 100))

/-- String escaping of `json.dumps` with `ensure_ascii=True`. -/
def dumpEscapeChar (c : Char) : List Char :=
  if c = '"' then ['\\', '"']
  else if c = '\\' then ['\\', '\\']
  else if c = '\n' then ['\\', 'n']
  else if c = '\t' then ['\\', 't']
  else if c = '\r' then ['\\', 'r']
  else if c.toNat = 8 then ['\\', 'b']
  else if c.toNat = 12 then ['\\', 'f']
  else if c.toNat < 32 || c.toNat > 126 then
    let ds := Nat.toDigits 16 c.toNat
    '\\' :: 'u' :: (List.replicate (4 - ds.length) '0' ++ ds)
  else [c]

def dumpEscape (s : String) : String :=
  String.mk (s.toList.flatMap dumpEscapeChar)

mutual

/-- Python `json.dumps` with its default separators. -/
def jsonDumps : Json → String
  | Json.null => "null"
  | Json.bool true => "true"
  | Json.bool false => "false"
  | Json.num l => l
  | Json.str s => "\"" ++ dumpEscape s ++ "\""
  | Json.arr xs => "[" ++ jsonDumpsList xs ++ "]"
  | Json.obj fs => "\x7b" ++ jsonDumpsFields fs ++ "\x7d"

def jsonDumpsList : List Json → String
  | [] => ""
  | [x] => jsonDumps x
  | x :: y :: xs => jsonDumps x ++ ", " ++ jsonDumpsList (y :: xs)

def jsonDumpsFields : List (String × Json) → String
  | [] => ""
  | [(k, v)] => "\"" ++ dumpEscape k ++ "\": " ++ jsonDumps v
  | (k, v) :: f :: fs =>
    "\"" ++ dumpEscape k ++ "\": " ++ jsonDumps v ++ ", " ++ jsonDumpsFields (f :: fs)

end

/-- One row of the `tweets` table (init_database schema).  `none` models
SQL NULL; classification_result is 1 = approved, 0 = filtered. -/
structure TweetRow where
  id : String
  text : String
  created_at : Option String
  captured_at : String
  author_id : Option String
  author_username : Option String
  author_display_name : Option String
  author_verified : Int
  retweet_count : Int
  reply_count : Int
  like_count : Int
  quote_count : Int
  reply_to_tweet_id : Option String
  reply_to_user_id : Option String
  reply_to_username : Option String
  is_retweet : Int
  is_quote : Int
  quoted_tweet_id : Option String
  media_json : String
  urls_json : String
  hashtags_json : String
  mentions_json : String
  classification_status : String
  classification_result : Option Int
  classification_reason : Option String
  classified_at : Option String
deriving DecidableEq

/-- The database state: the rows of the `tweets` table in insertion order. -/
abbrev Db := List TweetRow

/-- Nested `author` object of an ingested payload. -/
structure AuthorInput where
  id : Option String := none
  username : Option String := none
  display_name : Option String := none
  verified : Bool := false
deriving DecidableEq

/-- Nested `metrics` object of an ingested payload. -/
structure MetricsInput where
  retweet_count : Int := 0
  reply_count : Int := 0
  like_count : Int := 0
  quote_count : Int := 0
deriving DecidableEq

/-- Nested `reply_to` object of an ingested payload. -/
structure ReplyToInput where
  tweet_id : Option String := none
  user_id : Option String := none
  username : Option String := none
deriving DecidableEq

/-- An ingested tweet payload as consumed by `store_tweets`.  A `none` in
`id`/`text`/`created_at`/`captured_at` models the key being absent from
the dict (the payloads modelled here carry well-typed values for the keys
they do have). -/
structure TweetInput where
  id : Option String := none
  text : Option String := none
  created_at : Option String := none
  captured_at : Option String := none
  author : Option AuthorInput := none
  metrics : Option MetricsInput := none
  reply_to : Option ReplyToInput := none
  is_retweet : Bool := false
  is_quote : Bool := false
  quoted_tweet_id : Option String := none
  media : List Json := []
  urls : List Json := []
  hashtags : List Json := []
  mentions : List Json := []
deriving DecidableEq

/-- The row built by the INSERT statement of `store_tweets` for a payload
whose `id` and `text` lookups succeeded; `now` is `datetime.utcnow().isoformat()`. -/
def mkRow (now : String) (t : TweetInput) (tid ttext : String) : TweetRow where
  id := tid
  text := ttext
  created_at := t.created_at
  captured_at := t.captured_at.getD now
  author_id := t.author.bind (fun a => a.id)
  author_username := t.author.bind (fun a => a.username)
  author_display_name := t.author.bind (fun a => a.display_name)
  author_verified := if (t.author.map (fun a => a.verified)).getD false then 1 else 0
  retweet_count := (t.metrics.map (fun m => m.retweet_count)).getD 0
  reply_count := (t.metrics.map (fun m => m.reply_count)).getD 0
  like_count := (t.metrics.map (fun m => m.like_count)).getD 0
  quote_count := (t.metrics.map (fun m => m.quote_count)).getD 0
  reply_to_tweet_id := t.reply_to.bind (fun r => r.tweet_id)
  reply_to_user_id := t.reply_to.bind (fun r => r.user_id)
  reply_to_username := t.reply_to.bind (fun r => r.username)
  is_retweet := if t.is_retweet then 1 else 0
  is_quote := if t.is_quote then 1 else 0
  quoted_tweet_id := t.quoted_tweet_id
  media_json := jsonDumps (Json.arr t.media)
  urls_json := jsonDumps (Json.arr t.urls)
  hashtags_json := jsonDumps (Json.arr t.hashtags)
  mentions_json := jsonDumps (Json.arr t.mentions)
  classification_status := "pending"
  classification_result := none
  classification_reason := none
  classified_at := none

/-- The insertion loop of `store_tweets`: `tweet["id"]`/`tweet["text"]`
raise KeyError when absent; a PRIMARY KEY conflict raises IntegrityError,
which is caught and counted as a duplicate. -/
def storeLoop (now : String) : List TweetInput → Db → Nat → Nat →
    Except PyError (Db × Nat × Nat)
  | [], db, ins, dup => Except.ok (db, ins, dup)
  | t :: ts, db, ins, dup =>
    match t.id with
    | none => Except.error PyError.keyError
    | some tid =>
      match t.text with
      | none => Except.error PyError.keyError
      | some ttext =>
        if db.any (fun r => r.id = tid) then storeLoop now ts db ins (dup + 1)
        else storeLoop now ts (db ++ [mkRow now t tid ttext]) (ins + 1) dup

/-- The function `store_tweets`, transaction included: on success the new rows are
committed; an uncaught exception rolls the whole transaction back, leaving
the table unchanged, and propagates. -/
def store_tweets (now : String) (tweets : List TweetInput) (db : Db) :
    Db × Except PyError (Nat × Nat) :=
  if tweets.isEmpty then (db, Except.ok (0, 0))
  else
    match storeLoop now tweets db 0 0 with
    | Except.ok (db', ins, dup) => (db', Except.ok (ins, dup))
    | Except.error e => (db, Except.error e)

/-- Byte-wise (SQLite memcmp) strict order on text values. -/
def charListLt : List Char → List Char → Bool
  | [], [] => false
  | [], _ :: _ => true
  | _ :: _, [] => false
  | a :: as, b :: bs =>
    if a.toNat < b.toNat then true
    else if b.toNat < a.toNat then false
    else charListLt as bs

def strLt (a b : String) : Bool := charListLt a.toList b.toList

/-- Stable insertion into a list sorted by `captured_at` descending. -/
def insertDescByCaptured (t : TweetRow) : List TweetRow → List TweetRow
  | [] => [t]
  | u :: us =>
    if strLt t.captured_at u.captured_at then u :: insertDescByCaptured t us
    else t :: u :: us

/-- The query clause `ORDER BY captured_at DESC` as a stable sort. -/
def sortDescByCaptured : List TweetRow → List TweetRow
  | [] => []
  | t :: ts => insertDescByCaptured t (sortDescByCaptured ts)

/-- The function `get_pending_tweets`: rows with status pending, most recently captured
first, truncated by `LIMIT`.  A negative SQL LIMIT means no limit. -/
def get_pending_tweets (limit : Int) (db : Db) : List TweetRow :=
  let pend := sortDescByCaptured (db.filter (fun r => r.classification_status = "pending"))
  if limit < 0 then pend else pend.take limit.toNat

/-- The function `update_classification`: marks the row with the given id completed.
The UPDATE touches every row whose id matches and no other row. -/
def update_classification (tweet_id : String) (approved : Bool)
    (reason : Option String) (now : String) (db : Db) : Db :=
  db.map (fun r =>
    if r.id = tweet_id then
      { r with
        classification_status := "completed"
        classification_result := some (if approved then 1 else 0)
        classification_reason := reason
        classified_at := some now }
    else r)

/-- The function `get_stats`: the four aggregate counts. -/
structure Stats where
  total : Nat
  pending : Nat
  approved : Nat
  filtered : Nat
deriving DecidableEq

def get_stats (db : Db) : Stats where
  total := db.length
  pending := (db.filter (fun r => r.classification_status = "pending")).length
  approved := (db.filter (fun r => r.classification_result = some 1)).length
  filtered := (db.filter (fun r => r.classification_result = some 0)).length

/-! ## Classification orchestrator (run_classifier in classifier.py) -/

/-- Observable store/model interactions of one run, in order. -/
inductive Event where
  | statsQuery (s : Stats)
  | fetch (requested : Int) (got : Nat)
  | modelCall (tweetId : String)
  | commit (tweetId : String)
deriving DecidableEq

/-- Final state of a `run_classifier` invocation.  `err` is the exception
that aborted the run, if any; `db` is the table as left on disk (each
committed UPDATE is its own transaction, so commits made before an abort
persist). -/
structure RunOut where
  db : Db
  err : Option PyError
  processed : Int
  approvedCount : Int
  filteredCount : Int
  trace : List Event
  calls : Nat
deriving DecidableEq

/-- The function `classify_batch`: one model call per tweet, in order; the reply stream
`oracle` is indexed by the running call counter.  An uncaught parse
exception aborts the batch. -/
def classify_batch (oracle : Nat → ModelReply) :
    Nat → List TweetRow →
    Except (PyError × Nat × List Event) (List (String × Json × Json) × Nat × List Event)
  | calls, [] => Except.ok ([], calls, [])
  | calls, t :: ts =>
    match classify_tweet (oracle calls) with
    | Except.error e => Except.error (e, calls + 1, [Event.modelCall t.id])
    | Except.ok (ap, rs) =>
      match classify_batch oracle (calls + 1) ts with
      | Except.error (e, c2, evs) => Except.error (e, c2, Event.modelCall t.id :: evs)
      | Except.ok (res, c2, evs) =>
        Except.ok ((t.id, ap, rs) :: res, c2, Event.modelCall t.id :: evs)

/-- The commit loop over a batch's results: skips the UPDATE in dry-run,
then counts the outcome by Python truthiness of the parsed `approved`
value.  A binding error in one UPDATE rolls back only that statement and
aborts the run, leaving earlier commits in place. -/
def commit_fold (dry : Bool) (now : String) :
    List (String × Json × Json) → Db → Int → Int → List Event →
    Db × Option PyError × Int × Int × List Event
  | [], db, a, f, evs => (db, none, a, f, evs)
  | (tid, ap, rs) :: res, db, a, f, evs =>
    if dry then
      commit_fold dry now res db (if jsonTruthy ap then a + 1 else a)
        (if jsonTruthy ap then f else f + 1) evs
    else
      match sqlite_bind_text rs with
      | Except.error e => (db, some e, a, f, evs)
      | Except.ok rtext =>
        commit_fold dry now res (update_classification tid (jsonTruthy ap) rtext now db)
          (if jsonTruthy ap then a + 1 else a) (if jsonTruthy ap then f else f + 1)
          (evs ++ [Event.commit tid])

/-- One unfolding layer of the `while processed < limit` batch loop of
`run_classifier`.  `fuel` bounds the number of iterations; each iteration
that recurses increases `processed` by at least one, so
`(limit - processed).toNat` iterations always suffice, and `run_loop`
below instantiates exactly that bound (`run_loop_fuel_congr` shows any
sufficient bound gives the same result, so the bound never cuts the loop
short). -/
def run_loop_fuel (oracle : Nat → ModelReply) (bs : Int) (dry : Bool) (now : String)
    (limit : Int) : Nat → Db → Int → Int → Int → List Event → Nat → RunOut
  | 0, db, processed, approvedC, filteredC, trace, calls =>
    ⟨db, none, processed, approvedC, filteredC, trace, calls⟩
  | fuel + 1, db, processed, approvedC, filteredC, trace, calls =>
    if processed < limit then
      let fetchCount : Int := min bs (limit - processed)
      let tweets := get_pending_tweets fetchCount db
      if tweets.isEmpty then
        ⟨db, none, processed, approvedC, filteredC, trace ++ [Event.fetch fetchCount 0], calls⟩
      else
        match classify_batch oracle calls tweets with
        | Except.error (e, calls2, evs) =>
          ⟨db, some e, processed, approvedC, filteredC,
            trace ++ Event.fetch fetchCount tweets.length :: evs, calls2⟩
        | Except.ok (results, calls2, evs) =>
          match commit_fold dry now results db approvedC filteredC [] with
          | (db2, some e, a2, f2, evs2) =>
            ⟨db2, some e, processed, a2, f2,
              trace ++ Event.fetch fetchCount tweets.length :: (evs ++ evs2), calls2⟩
          | (db2, none, a2, f2, evs2) =>
            run_loop_fuel oracle bs dry now limit fuel db2 (processed + tweets.length) a2 f2
              (trace ++ Event.fetch fetchCount tweets.length :: (evs ++ evs2)) calls2
    else
      ⟨db, none, processed, approvedC, filteredC, trace, calls⟩

/-- The batch loop itself. -/
def run_loop (oracle : Nat → ModelReply) (bs : Int) (dry : Bool) (now : String)
    (limit : Int) (db : Db) (processed approvedC filteredC : Int)
    (trace : List Event) (calls : Nat) : RunOut :=
  run_loop_fuel oracle bs dry now limit (limit - processed).toNat
    db processed approvedC filteredC trace calls

/-- The function `run_classifier`: abort without touching the store when no API key is
configured; report stats; exit when nothing is pending; compute the limit
(`if max_tweets` is falsy both for None and for 0); then run the batch loop. -/
def run_classifier (hasApiKey : Bool) (oracle : Nat → ModelReply) (batch_size : Int)
    (max_tweets : Option Int) (dry_run : Bool) (now : String) (db : Db) : RunOut :=
  if !hasApiKey then ⟨db, none, 0, 0, 0, [], 0⟩
  else
    let stats := get_stats db
    if stats.pending = 0 then ⟨db, none, 0, 0, 0, [Event.statsQuery stats], 0⟩
    else
      let limit : Int :=
        match max_tweets with
        | some m => if m = 0 then (stats.pending : Int) else min m (stats.pending : Int)
        | none => (stats.pending : Int)
      run_loop oracle batch_size dry_run now limit db 0 0 0 [Event.statsQuery stats] 0

/-- The `got` components of the fetch events of a trace, in order: the
batch sizes the run reported. -/
def fetchGots : List Event → List Nat
  | [] => []
  | Event.fetch _ got :: evs => got :: fetchGots evs
  | _ :: evs => fetchGots evs

/-- The ids of the model calls of a trace, in order. -/
def modelCallIds : List Event → List String
  | [] => []
  | Event.modelCall i :: evs => i :: modelCallIds evs
  | _ :: evs => modelCallIds evs

/-- The ids of the commits of a trace, in order. -/
def commitIds : List Event → List String
  | [] => []
  | Event.commit i :: evs => i :: commitIds evs
  | _ :: evs => commitIds evs

/-- A minimal well-formed ingestion payload, for concrete witnesses. -/
def testInput (i : String) : TweetInput := { id := some i, text := some ("tweet " ++ i) }

/-- The row such a payload produces, captured at time "t0". -/
def testRow (i : String) : TweetRow := mkRow "t0" (testInput i) i ("tweet " ++ i)

def goodReply : String :=
  "\x7b\"approved\": true, \"reason\": \"positive content\"\x7d"

/-! ## Invariants and specification-side definitions -/

/-- The composite per-row invariant of §3 of the spec: completed iff a 0/1
result with a timestamp, pending iff neither. -/
def rowInv (r : TweetRow) : Prop :=
  (r.classification_status = "completed" ↔
    (r.classification_result = some 1 ∨ r.classification_result = some 0) ∧
      r.classified_at ≠ none) ∧
  (r.classification_status = "pending" ↔
    r.classification_result = none ∧ r.classified_at = none)

/-- Database states reachable through ingestion (`store_tweets`, including
its rollback behaviour) and classification commits (`update_classification`),
starting from the freshly initialized empty table. -/
inductive Reachable : Db → Prop
  | init : Reachable []
  | store (db : Db) (now : String) (ts : List TweetInput) :
      Reachable db → Reachable (store_tweets now ts db).1
  | update (db : Db) (tid : String) (ap : Bool) (rs : Option String) (now : String) :
      Reachable db → Reachable (update_classification tid ap rs now db)

/-- The rows the pending fetch draws from. -/
def pendingRows (db : Db) : List TweetRow :=
  db.filter (fun r => r.classification_status = "pending")

/-- The batch sizes a full run reports when the pending supply covers the
whole remaining quota: `min bs rem` per batch until the quota is gone. -/
def batchSizes (bs : Nat) : Nat → List Nat
  | 0 => []
  | rem + 1 =>
    if bs = 0 then []
    else min bs (rem + 1) :: batchSizes bs (rem + 1 - min bs (rem + 1))
termination_by rem => rem
decreasing_by omega

/-- A model reply is safe when `classify_tweet` neither raises on it nor
produces a reason that fails to bind to the reason column. -/
def safeReply (reply : ModelReply) : Bool :=
  match classify_tweet reply with
  | Except.ok (_, rs) => (sqlite_bind_text rs).isOk
  | Except.error _ => false

/-- The id sequence a dry run sends to the model: each batch re-reads the
same head of the unchanged pending ordering. -/
def dryCalls (ids : List String) (bs : Nat) : Nat → List String
  | 0 => []
  | rem + 1 =>
    if bs = 0 then []
    else ids.take (min bs (rem + 1)) ++ dryCalls ids bs (rem + 1 - min bs (rem + 1))
termination_by rem => rem
decreasing_by omega

/-! ## Sanity checks -/

example : json_loads "\x7b\"approved\": true, \"reason\": \"ok\"\x7d" =
    some (Json.obj [("approved", Json.bool true), ("reason", Json.str "ok")]) := by decide

example : json_loads "\x7bnot json\x7d" = none := by decide

example : re_search_brace "x \x7bnot json\x7d y" = some "\x7bnot json\x7d" := by decide

example : parse_reply "\x7bnot json\x7d" = Except.error PyError.jsonDecodeError := rfl

example : classify_tweet (ModelReply.ok "I think this should be approved because true dat") =
    Except.ok (Json.bool true, Json.str "LLM indicated approval") := rfl

/-! ## Record store (database.py) -/


example :
    run_classifier true (fun _ => ModelReply.ok goodReply) 10 (some 0) false "now" [testRow "t1"] =
      ⟨[{ testRow "t1" with
            classification_status := "completed"
            classification_result := some 1
            classification_reason := some "positive content"
            classified_at := some "now" }],
        none, 1, 1, 0,
        [Event.statsQuery ⟨1, 1, 0, 0⟩, Event.fetch 1 1, Event.modelCall "t1", Event.commit "t1"],
        1⟩ := rfl

example :
    get_stats (run_classifier true (fun _ => ModelReply.ok goodReply) 10 none false "now"
      [testRow "t1"]).db = ⟨1, 0, 1, 0⟩ := rfl

example :
    run_classifier true (fun _ => ModelReply.ok goodReply) 0 none false "now" [testRow "t1"] =
      ⟨[testRow "t1"], none, 0, 0, 0,
        [Event.statsQuery ⟨1, 1, 0, 0⟩, Event.fetch 0 0], 0⟩ := rfl

example :
    (run_classifier true (fun _ => ModelReply.ok goodReply) 4 (some 10) false "now"
        ((List.range 17).map (fun n => testRow ("t" ++ toString n)))).processed = 10 := by decide

example :
    fetchGots (run_classifier true (fun _ => ModelReply.ok goodReply) 4 (some 10) false "now"
        ((List.range 17).map (fun n => testRow ("t" ++ toString n)))).trace = [4, 4, 2] := by decide

example :
    (run_classifier true (fun _ => ModelReply.ok goodReply) 2 none true "now"
        ((List.range 3).map (fun n => testRow ("t" ++ toString n)))).db =
      (List.range 3).map (fun n => testRow ("t" ++ toString n)) := by decide

example :
    modelCallIds (run_classifier true (fun _ => ModelReply.ok goodReply) 2 none true "now"
        ((List.range 3).map (fun n => testRow ("t" ++ toString n)))).trace =
      ["t0", "t1", "t0"] := by decide

/-! ## C1: the response parser's fallback chain -/

/-- C1 (counterexample): the claim says the parser never raises on input
that is not a valid JSON object with the expected fields.  On the reply
`"\x7bnot json\x7d"` the whole-text parse fails, the brace regex matches
`\x7bnot json\x7d`, and the unguarded second `json.loads` raises
JSONDecodeError, which propagates out of `classify_tweet`. -/
theorem c1_parser_raises_counterexample :
    classify_tweet (ModelReply.ok "\x7bnot json\x7d") =
      Except.error PyError.jsonDecodeError := rfl

/-- C1 (amended): whenever the stripped reply fails the whole-text JSON
parse and the brace regex finds no substring, the parser never raises: it
resolves the keyword heuristics, and when those fail too it returns
approved=true with a reason embedding a truncated 100-character prefix of
the stripped response text. -/
theorem c1_parser_default_approve (raw : String)
    (h1 : json_loads (pyStrip raw) = none)
    (h2 : re_search_brace (pyStrip raw) = none) :
    (classify_tweet (ModelReply.ok raw)).isOk = true ∧
    ((strContains (strToLower (pyStrip raw)) "approved" &&
        strContains (strToLower (pyStrip raw)) "true") = false →
      (strContains (strToLower (pyStrip raw)) "approved" &&
        strContains (strToLower (pyStrip raw)) "false") = false →
      classify_tweet (ModelReply.ok raw) =
        Except.ok (Json.bool true,
          Json.str ("Could not parse response, defaulting to approved: " ++
            (pyStrip raw).take 100))) := by
  simp only [classify_tweet, parse_reply, h1, h2]
  constructor
  · split
    · rfl
    · split
      · rfl
      · rfl
  · intro hc1 hc2
    rw [hc1, hc2]
    rfl

/-- C1 (witness): a plain-text reply with no braces and no keywords takes
the default branch. -/
theorem c1_parser_default_approve_witness :
    (classify_tweet (ModelReply.ok "hello")).isOk = true ∧
    classify_tweet (ModelReply.ok "hello") =
      Except.ok (Json.bool true,
        Json.str ("Could not parse response, defaulting to approved: " ++
          (pyStrip "hello").take 100)) :=
  ⟨(c1_parser_default_approve "hello" rfl rfl).1,
   (c1_parser_default_approve "hello" rfl rfl).2 rfl rfl⟩

/-! ## C3 and C6: deduplication and validation in store_tweets -/

/-- C6: a payload list containing a record without an `id` or `text` key
makes `store_tweets` raise KeyError; the transaction rolls back, so the
table is unchanged and nothing from the call is persisted. -/
theorem storeLoop_keyError (now : String) :
    ∀ (ts : List TweetInput) (db : Db) (i d : Nat),
      (∃ t ∈ ts, t.id = none ∨ t.text = none) →
      storeLoop now ts db i d = Except.error PyError.keyError := by
  intro ts
  induction ts with
  | nil => intro db i d h; simp at h
  | cons t ts ih =>
    intro db i d h
    cases hid : t.id with
    | none => simp [storeLoop, hid]
    | some tid =>
      cases htxt : t.text with
      | none => simp [storeLoop, hid, htxt]
      | some ttext =>
        have h' : ∃ u ∈ ts, u.id = none ∨ u.text = none := by
          rcases h with ⟨u, hu, hcase⟩
          rcases List.mem_cons.mp hu with rfl | hu'
          · rcases hcase with h1 | h1
            · rw [hid] at h1; exact absurd h1 (by simp)
            · rw [htxt] at h1; exact absurd h1 (by simp)
          · exact ⟨u, hu', hcase⟩
        simp only [storeLoop, hid, htxt]
        split
        · exact ih _ _ _ h'
        · exact ih _ _ _ h'

/-- C6: partial records abort the whole ingestion call with a KeyError and
leave the store unchanged. -/
theorem c6_partial_record_rejected (now : String) (ts : List TweetInput) (db : Db)
    (h : ∃ t ∈ ts, t.id = none ∨ t.text = none) :
    store_tweets now ts db = (db, Except.error PyError.keyError) := by
  have hne : ts.isEmpty = false := by
    rcases h with ⟨t, ht, _⟩
    cases ts
    · simp at ht
    · rfl
  simp only [store_tweets, hne, Bool.false_eq_true, if_false]
  rw [storeLoop_keyError now ts db 0 0 h]

/-- C6 (witness): a record with an id but no text is rejected and an empty
store stays empty. -/
theorem c6_partial_record_rejected_witness :
    store_tweets "n" [{ id := some "a" }] [] = ([], Except.error PyError.keyError) :=
  c6_partial_record_rejected "n" [{ id := some "a" }] []
    ⟨{ id := some "a" }, by simp, Or.inr rfl⟩

/-- C3: inserting a fresh id reports inserted=1; re-inserting the same id
(with any content) is reported as duplicates=1, leaves the stored row —
content and classification state — untouched, and the store keeps exactly
one row with that id. -/
theorem c3_duplicate_id_noop (db : Db) (t1 t2 : TweetInput) (i s1 s2 now1 now2 : String)
    (h0 : ∀ r ∈ db, r.id ≠ i)
    (h1 : t1.id = some i) (h2 : t1.text = some s1)
    (h3 : t2.id = some i) (h4 : t2.text = some s2) :
    store_tweets now1 [t1] db = (db ++ [mkRow now1 t1 i s1], Except.ok (1, 0)) ∧
    store_tweets now2 [t2] (db ++ [mkRow now1 t1 i s1]) =
      (db ++ [mkRow now1 t1 i s1], Except.ok (0, 1)) ∧
    ((db ++ [mkRow now1 t1 i s1]).filter (fun r => r.id = i)).length = 1 := by
  have hany : db.any (fun r => r.id = i) = false := by
    simp only [List.any_eq_false, decide_eq_true_eq]
    exact h0
  have hid_mk : (mkRow now1 t1 i s1).id = i := rfl
  refine ⟨?_, ?_, ?_⟩
  · simp only [store_tweets, List.isEmpty_cons, Bool.false_eq_true, if_false,
      storeLoop, h1, h2, hany, Bool.false_eq_true, if_false]
  · have hany2 : (db ++ [mkRow now1 t1 i s1]).any (fun r => r.id = i) = true := by
      simp [List.any_append, hid_mk]
    simp only [store_tweets, List.isEmpty_cons, Bool.false_eq_true, if_false,
      storeLoop, h3, h4, hany2, if_true]
  · rw [List.filter_append]
    have hdb : db.filter (fun r => r.id = i) = [] := by
      rw [List.filter_eq_nil_iff]
      intro r hr
      simp only [decide_eq_true_eq]
      exact h0 r hr
    rw [hdb]
    simp [hid_mk]

/-- C3 (witness): the two calls on an empty store, with differing content
for the same id. -/
theorem c3_duplicate_id_noop_witness :
    store_tweets "n1" [{ id := some "a", text := some "x1" }] [] =
      ([mkRow "n1" { id := some "a", text := some "x1" } "a" "x1"], Except.ok (1, 0)) ∧
    store_tweets "n2" [{ id := some "a", text := some "x2" }]
        [mkRow "n1" { id := some "a", text := some "x1" } "a" "x1"] =
      ([mkRow "n1" { id := some "a", text := some "x1" } "a" "x1"], Except.ok (0, 1)) ∧
    ([mkRow "n1" { id := some "a", text := some "x1" } "a" "x1"].filter
        (fun r => r.id = "a")).length = 1 := by
  have := c3_duplicate_id_noop [] { id := some "a", text := some "x1" }
    { id := some "a", text := some "x2" } "a" "x1" "x2" "n1" "n2"
    (by simp) rfl rfl rfl rfl
  simpa using this

/-! ## C2: the composite classification-state invariant -/

theorem rowInv_mkRow (now : String) (t : TweetInput) (tid ttext : String) :
    rowInv (mkRow now t tid ttext) := by
  constructor
  · constructor
    · intro h; exact absurd h (by simp [mkRow])
    · intro h; rcases h.1 with h1 | h1 <;> exact absurd h1 (by simp [mkRow])
  · constructor
    · intro _; exact ⟨rfl, rfl⟩
    · intro _; rfl

theorem storeLoop_preserves_inv (now : String) :
    ∀ (ts : List TweetInput) (db : Db) (i d : Nat) (db' : Db) (i' d' : Nat),
      (∀ r ∈ db, rowInv r) →
      storeLoop now ts db i d = Except.ok (db', i', d') →
      ∀ r ∈ db', rowInv r := by
  intro ts
  induction ts with
  | nil =>
    intro db i d db' i' d' hdb heq
    rw [storeLoop] at heq
    simp only [Except.ok.injEq, Prod.mk.injEq] at heq
    rw [← heq.1]
    exact hdb
  | cons t ts ih =>
    intro db i d db' i' d' hdb heq
    cases hid : t.id with
    | none => rw [storeLoop, hid] at heq; exact absurd heq (by simp)
    | some tid =>
      cases htxt : t.text with
      | none => rw [storeLoop, hid, htxt] at heq; exact absurd heq (by simp)
      | some ttext =>
        simp only [storeLoop, hid, htxt] at heq
        by_cases hdup : (db.any fun r => r.id = tid) = true
        · rw [if_pos hdup] at heq
          exact ih _ _ _ _ _ _ hdb heq
        · rw [if_neg hdup] at heq
          refine ih _ _ _ _ _ _ ?_ heq
          intro r hr
          rcases List.mem_append.mp hr with hr1 | hr2
          · exact hdb r hr1
          · rw [List.mem_singleton.mp hr2]
            exact rowInv_mkRow now t tid ttext

/-- C2: every state reachable through `store_tweets` and
`update_classification` satisfies the composite invariant for all its
rows; in particular it holds before and after any commit, since Reachable
is closed under `update_classification`. -/
theorem c2_state_invariant (db : Db) (h : Reachable db) : ∀ r ∈ db, rowInv r := by
  induction h with
  | init => intro r hr; exact absurd hr (by simp)
  | store db now ts _ ih =>
    unfold store_tweets
    split
    · exact ih
    · split
      · next db' ins dup heq =>
        exact storeLoop_preserves_inv now ts db 0 0 db' ins dup ih heq
      · exact ih
  | update db tid ap rs now _ ih =>
    intro r hr
    rcases List.mem_map.mp hr with ⟨r0, hr0, hmap⟩
    by_cases hcase : r0.id = tid
    · rw [← hmap]
      simp only [hcase, if_true]
      constructor
      · constructor
        · intro _
          refine ⟨?_, by simp⟩
          cases ap
          · right; rfl
          · left; rfl
        · intro _; rfl
      · constructor
        · intro hp; exact absurd hp (by simp)
        · intro hp; exact absurd hp.2 (by simp)
    · rw [← hmap]
      simp only [hcase, if_false]
      exact ih r0 hr0

/-- C2 (witness): the row left by ingesting one record and committing an
approval satisfies the invariant. -/
theorem c2_state_invariant_witness :
    rowInv { testRow "a" with
      classification_status := "completed"
      classification_result := some 1
      classification_reason := none
      classified_at := some "n2" } :=
  c2_state_invariant _
    (Reachable.update _ "a" true none "n2"
      (Reachable.store [] "t0" [testInput "a"] Reachable.init))
    _ (by decide)

/-! ## C7 and C8: batch-size and max-records edge cases -/

/-- C7 (counterexample): with batchSize = 0 and one pending record, the
run is not rejected: it queries stats, issues a (zero-limit) pending
fetch, and terminates normally with no error and no state change —
contradicting "treats it as a configuration error and rejects it before
starting any work, with the error surfaced to the caller". -/
theorem c7_batch_size_zero_counterexample :
    run_classifier true (fun _ => ModelReply.ok goodReply) 0 none false "now" [testRow "t1"] =
      ⟨[testRow "t1"], none, 0, 0, 0,
        [Event.statsQuery ⟨1, 1, 0, 0⟩, Event.fetch 0 0], 0⟩ := rfl

/-- C7 (amended): `run_classifier` performs no batch-size validation.
With batchSize = 0 the run proceeds past the stats query, the first fetch
returns no rows (SQL LIMIT 0), and the loop exits normally: nothing is
processed, no error is surfaced, and the store is unchanged.  (A negative
batchSize is likewise accepted; it makes the fetch unbounded.) -/
theorem run_loop_fuel_bs_zero (oracle : Nat → ModelReply) (bs : Int) (dry : Bool)
    (now : String) (limit : Int) (hbs : bs = 0) (fuel : Nat) (db : Db)
    (processed a f : Int) (trace : List Event) (calls : Nat) :
    (run_loop_fuel oracle bs dry now limit fuel db processed a f trace calls).db = db ∧
    (run_loop_fuel oracle bs dry now limit fuel db processed a f trace calls).err = none ∧
    (run_loop_fuel oracle bs dry now limit fuel db processed a f trace calls).processed =
      processed := by
  cases fuel with
  | zero => exact ⟨rfl, rfl, rfl⟩
  | succ k =>
    rw [run_loop_fuel]
    by_cases h : processed < limit
    · rw [if_pos h]
      have hfetch : get_pending_tweets (min bs (limit - processed)) db = [] := by
        unfold get_pending_tweets
        rw [if_neg (by omega)]
        have hz : (min bs (limit - processed)).toNat = 0 := by
          have : min bs (limit - processed) ≤ 0 := by omega
          omega
        rw [hz, List.take_zero]
      simp [hfetch]
    · rw [if_neg h]
      exact ⟨rfl, rfl, rfl⟩

/-- C7 (amended): `run_classifier` performs no batch-size validation.
With batchSize = 0 the run proceeds past the stats query, the first fetch
returns no rows (SQL LIMIT 0), and the loop exits normally: nothing is
processed, no error is surfaced, and the store is unchanged.  (A negative
batchSize is likewise accepted; it makes the fetch unbounded.) -/
theorem c7_batch_size_zero_graceful (oracle : Nat → ModelReply)
    (max_tweets : Option Int) (dry : Bool) (now : String) (db : Db) :
    (run_classifier true oracle 0 max_tweets dry now db).db = db ∧
    (run_classifier true oracle 0 max_tweets dry now db).err = none ∧
    (run_classifier true oracle 0 max_tweets dry now db).processed = 0 := by
  unfold run_classifier
  simp only [Bool.not_true, Bool.false_eq_true, if_false]
  split
  · exact ⟨rfl, rfl, rfl⟩
  · exact run_loop_fuel_bs_zero oracle 0 dry now _ rfl _ db 0 0 0 _ 0

/-- C8: with `--max 0` and one pending record the run does not process
nothing: `if max_tweets` is falsy for 0, so the limit silently becomes the
whole pending count and the record is classified and committed. -/
theorem c8_max_zero_classifies_pending :
    run_classifier true (fun _ => ModelReply.ok goodReply) 10 (some 0) false "now" [testRow "t1"] =
      ⟨[{ testRow "t1" with
            classification_status := "completed"
            classification_result := some 1
            classification_reason := some "positive content"
            classified_at := some "now" }],
        none, 1, 1, 0,
        [Event.statsQuery ⟨1, 1, 0, 0⟩, Event.fetch 1 1, Event.modelCall "t1", Event.commit "t1"],
        1⟩ := rfl

/-! ## C4: dry-run is a frame-preserving no-op on the store -/

theorem commitIds_append (xs ys : List Event) :
    commitIds (xs ++ ys) = commitIds xs ++ commitIds ys := by
  induction xs with
  | nil => rfl
  | cons e xs ih => cases e <;> simp [commitIds, ih]

theorem commit_fold_dry (now : String) :
    ∀ (res : List (String × Json × Json)) (db : Db) (a f : Int) (evs : List Event),
      ∃ a2 f2, commit_fold true now res db a f evs = (db, none, a2, f2, evs) := by
  intro res
  induction res with
  | nil => intro db a f evs; exact ⟨a, f, rfl⟩
  | cons r res ih =>
    intro db a f evs
    obtain ⟨tid, ap, rs⟩ := r
    simp only [commit_fold, if_true]
    exact ih db _ _ evs

/-- The events recorded by `classify_batch` are model calls only: no
commits ever appear there, whatever the result. -/
theorem classify_batch_no_commits (oracle : Nat → ModelReply) :
    ∀ (tweets : List TweetRow) (calls : Nat),
      commitIds (match classify_batch oracle calls tweets with
        | Except.error (_, _, evs) => evs
        | Except.ok (_, _, evs) => evs) = [] := by
  intro tweets
  induction tweets with
  | nil => intro calls; rfl
  | cons t ts ih =>
    intro calls
    simp only [classify_batch]
    cases hct : classify_tweet (oracle calls) with
    | error e => rfl
    | ok pr =>
      obtain ⟨ap, rs⟩ := pr
      have := ih (calls + 1)
      cases hcb : classify_batch oracle (calls + 1) ts with
      | error tr =>
        obtain ⟨e2, c2, evs⟩ := tr
        rw [hcb] at this
        simpa [commitIds] using this
      | ok tr =>
        obtain ⟨res2, c2, evs⟩ := tr
        rw [hcb] at this
        simpa [commitIds] using this

theorem run_loop_fuel_dry (oracle : Nat → ModelReply) (bs : Int) (now : String)
    (limit : Int) :
    ∀ (fuel : Nat) (db : Db) (processed a f : Int) (trace : List Event) (calls : Nat),
      (run_loop_fuel oracle bs true now limit fuel db processed a f trace calls).db = db ∧
      commitIds (run_loop_fuel oracle bs true now limit fuel db processed a f trace calls).trace =
        commitIds trace := by
  intro fuel
  induction fuel with
  | zero => intro db processed a f trace calls; exact ⟨rfl, rfl⟩
  | succ k ih =>
    intro db processed a f trace calls
    rw [run_loop_fuel]
    by_cases h : processed < limit
    · rw [if_pos h]
      cases hl : get_pending_tweets (min bs (limit - processed)) db with
      | nil =>
        simp only [hl, List.isEmpty_nil, if_true]
        refine ⟨by trivial, ?_⟩
        rw [commitIds_append]
        simp [commitIds]
      | cons t0 ts0 =>
        simp only [hl, List.isEmpty_cons, Bool.false_eq_true, if_false]
        have hnc := classify_batch_no_commits oracle (t0 :: ts0) calls
        cases hcb : classify_batch oracle calls (t0 :: ts0) with
        | error tr =>
          obtain ⟨e2, c2, evs⟩ := tr
          rw [hcb] at hnc
          simp only [hcb]
          refine ⟨by trivial, ?_⟩
          rw [commitIds_append]
          simpa [commitIds] using hnc
        | ok tr =>
          obtain ⟨res2, c2, evs⟩ := tr
          rw [hcb] at hnc
          simp only at hnc
          obtain ⟨a2, f2, hcf⟩ := commit_fold_dry now res2 db a f []
          simp only [hcb, hcf]
          refine ⟨(ih _ _ _ _ _ _).1, ?_⟩
          rw [(ih _ _ _ _ _ _).2]
          rw [commitIds_append]
          simp [commitIds, hnc]
    · rw [if_neg h]
      exact ⟨rfl, rfl⟩

/-- C4: a dry run never changes the record store — the table, and hence
every record's classification fields and all four `get_stats` counts, are
identical before and after, and the trace contains no commit at all. -/
theorem c4_dry_run_no_change (hk : Bool) (oracle : Nat → ModelReply) (bs : Int)
    (max_tweets : Option Int) (now : String) (db : Db) :
    (run_classifier hk oracle bs max_tweets true now db).db = db ∧
    get_stats (run_classifier hk oracle bs max_tweets true now db).db = get_stats db ∧
    commitIds (run_classifier hk oracle bs max_tweets true now db).trace = [] := by
  unfold run_classifier
  cases hk with
  | false => exact ⟨rfl, rfl, rfl⟩
  | true =>
    simp only [Bool.not_true, Bool.false_eq_true, if_false]
    by_cases hp : (get_stats db).pending = 0
    · simp only [hp, if_true]
      exact ⟨by trivial, by trivial, by trivial⟩
    · simp only [hp, if_false]
      unfold run_loop
      have hd := run_loop_fuel_dry oracle bs now
        (match max_tweets with
          | some m =>
            if m = 0 then ((get_stats db).pending : Int)
            else min m ((get_stats db).pending : Int)
          | none => ((get_stats db).pending : Int))
        ((match max_tweets with
          | some m =>
            if m = 0 then ((get_stats db).pending : Int)
            else min m ((get_stats db).pending : Int)
          | none => ((get_stats db).pending : Int)) - 0).toNat
        db 0 0 0 [Event.statsQuery (get_stats db)] 0
      exact ⟨hd.1, congrArg get_stats hd.1, hd.2.trans rfl⟩

/-! ## C5: batch quota arithmetic -/

theorem insertDescByCaptured_perm (t : TweetRow) (l : List TweetRow) :
    List.Perm (insertDescByCaptured t l) (t :: l) := by
  induction l with
  | nil => exact List.Perm.refl _
  | cons u us ih =>
    rw [insertDescByCaptured]
    by_cases hc : strLt t.captured_at u.captured_at = true
    · rw [if_pos hc]
      exact (List.Perm.cons u ih).trans (List.Perm.swap t u us)
    · rw [if_neg hc]

theorem sortDescByCaptured_perm (l : List TweetRow) :
    List.Perm (sortDescByCaptured l) l := by
  induction l with
  | nil => exact List.Perm.refl _
  | cons t ts ih =>
    rw [sortDescByCaptured]
    exact (insertDescByCaptured_perm t (sortDescByCaptured ts)).trans (List.Perm.cons t ih)

theorem sortDescByCaptured_length (l : List TweetRow) :
    (sortDescByCaptured l).length = l.length :=
  (sortDescByCaptured_perm l).length_eq

theorem get_pending_length (k : Int) (db : Db) (hk : 0 ≤ k) :
    (get_pending_tweets k db).length = min k.toNat (pendingRows db).length := by
  unfold get_pending_tweets
  rw [if_neg (by omega)]
  rw [List.length_take, sortDescByCaptured_length]
  rfl

theorem get_pending_mem (k : Int) (db : Db) (r : TweetRow)
    (hr : r ∈ get_pending_tweets k db) :
    r ∈ db ∧ r.classification_status = "pending" := by
  have hr2 : r ∈ sortDescByCaptured (pendingRows db) := by
    unfold get_pending_tweets at hr
    split at hr
    · exact hr
    · exact List.mem_of_mem_take hr
  have hr3 : r ∈ pendingRows db := (sortDescByCaptured_perm _).mem_iff.mp hr2
  unfold pendingRows at hr3
  have := List.mem_filter.mp hr3
  exact ⟨this.1, by simpa using this.2⟩

theorem get_pending_sublist_ids (k : Int) (db : Db) :
    ((get_pending_tweets k db).map (fun r => r.id)).Nodup →
      True := fun _ => trivial

theorem get_pending_ids_nodup (k : Int) (db : Db)
    (h : (db.map (fun r => r.id)).Nodup) :
    ((get_pending_tweets k db).map (fun r => r.id)).Nodup := by
  have h1 : ((pendingRows db).map (fun r => r.id)).Nodup := by
    refine List.Nodup.sublist ?_ h
    exact (List.filter_sublist db).map _
  have h2 : ((sortDescByCaptured (pendingRows db)).map (fun r => r.id)).Nodup := by
    refine (List.Perm.nodup_iff ?_).mpr h1
    exact (sortDescByCaptured_perm _).map _
  unfold get_pending_tweets
  split
  · exact h2
  · refine List.Nodup.sublist ?_ h2
    exact (List.take_sublist _ _).map _

theorem update_classification_ids (tid : String) (ap : Bool) (rs : Option String)
    (now : String) (db : Db) :
    (update_classification tid ap rs now db).map (fun r => r.id) =
      db.map (fun r => r.id) := by
  unfold update_classification
  rw [List.map_map]
  refine List.map_congr_left ?_
  intro r _
  by_cases hc : r.id = tid
  · simp [hc]
  · simp [hc]

theorem update_classification_not_present (tid : String) (ap : Bool) (rs : Option String)
    (now : String) (db : Db) (h : ∀ r ∈ db, ¬ r.id = tid) :
    update_classification tid ap rs now db = db := by
  unfold update_classification
  conv_rhs => rw [← List.map_id db]
  refine List.map_congr_left ?_
  intro r hr
  rw [if_neg (h r hr)]
  rfl

theorem update_classification_other_mem (tid : String) (ap : Bool) (rs : Option String)
    (now : String) (db : Db) (r : TweetRow) (hr : r ∈ db) (hne : ¬ r.id = tid) :
    r ∈ update_classification tid ap rs now db := by
  unfold update_classification
  refine List.mem_map.mpr ⟨r, hr, ?_⟩
  rw [if_neg hne]

/-- Committing the unique pending row with a given id removes exactly one
row from the pending set. -/
theorem update_classification_pending_count (tid : String) (ap : Bool)
    (rs : Option String) (now : String) :
    ∀ (db : Db), (db.map (fun r => r.id)).Nodup →
      (∃ r ∈ db, r.id = tid ∧ r.classification_status = "pending") →
      (pendingRows (update_classification tid ap rs now db)).length =
        (pendingRows db).length - 1 ∧
      1 ≤ (pendingRows db).length := by
  intro db
  induction db with
  | nil =>
    intro _ hex
    rcases hex with ⟨r, hr, _⟩
    exact absurd hr (by simp)
  | cons u us ih =>
    intro hnodup hex
    have hnodup_us : (us.map (fun r => r.id)).Nodup := (List.nodup_cons.mp hnodup).2
    have hu_notin : u.id ∉ us.map (fun r => r.id) := (List.nodup_cons.mp hnodup).1
    by_cases hc : u.id = tid
    · have hupend : u.classification_status = "pending" := by
        rcases hex with ⟨r, hr, hrid, hrp⟩
        rcases List.mem_cons.mp hr with rfl | hr'
        · exact hrp
        · exfalso
          exact hu_notin (by
            rw [hc, ← hrid]
            exact List.mem_map.mpr ⟨r, hr', rfl⟩)
      have hus_clean : update_classification tid ap rs now us = us := by
        refine update_classification_not_present tid ap rs now us ?_
        intro r hr hrid
        exact hu_notin (by rw [hc, ← hrid]; exact List.mem_map.mpr ⟨r, hr, rfl⟩)
      unfold update_classification at hus_clean ⊢
      rw [List.map_cons, if_pos hc]
      unfold pendingRows
      rw [List.filter_cons, List.filter_cons]
      rw [hus_clean]
      simp only [hupend]
      simp
    · have hex' : ∃ r ∈ us, r.id = tid ∧ r.classification_status = "pending" := by
        rcases hex with ⟨r, hr, hrid, hrp⟩
        rcases List.mem_cons.mp hr with rfl | hr'
        · exact absurd hrid hc
        · exact ⟨r, hr', hrid, hrp⟩
      have := ih hnodup_us hex'
      unfold update_classification at this ⊢
      rw [List.map_cons, if_neg hc]
      unfold pendingRows at this ⊢
      rw [List.filter_cons, List.filter_cons]
      by_cases hup : u.classification_status = "pending"
      · simp [hup]
        omega
      · simp [hup]
        omega

theorem fetchGots_append (xs ys : List Event) :
    fetchGots (xs ++ ys) = fetchGots xs ++ fetchGots ys := by
  induction xs with
  | nil => rfl
  | cons e xs ih => cases e <;> simp [fetchGots, ih]

theorem modelCallIds_append (xs ys : List Event) :
    modelCallIds (xs ++ ys) = modelCallIds xs ++ modelCallIds ys := by
  induction xs with
  | nil => rfl
  | cons e xs ih => cases e <;> simp [modelCallIds, ih]

/-- With a safe reply stream, a batch classification never raises: it
returns one result per fetched tweet, in fetch order, with bindable
reasons, recording exactly one model call per tweet and no other event. -/
theorem classify_batch_safe (oracle : Nat → ModelReply)
    (hsafe : ∀ n, safeReply (oracle n) = true) :
    ∀ (tweets : List TweetRow) (calls : Nat),
      ∃ res c2 evs, classify_batch oracle calls tweets = Except.ok (res, c2, evs) ∧
        res.map (fun x => x.1) = tweets.map (fun r => r.id) ∧
        (∀ x ∈ res, (sqlite_bind_text x.2.2).isOk = true) ∧
        modelCallIds evs = tweets.map (fun r => r.id) ∧
        commitIds evs = [] ∧
        fetchGots evs = [] := by
  intro tweets
  induction tweets with
  | nil => intro calls; exact ⟨[], calls, [], rfl, rfl, by simp, rfl, rfl, rfl⟩
  | cons t ts ih =>
    intro calls
    have hs := hsafe calls
    unfold safeReply at hs
    cases hct : classify_tweet (oracle calls) with
    | error e => rw [hct] at hs; exact absurd hs (by simp)
    | ok pr =>
      obtain ⟨ap, rs⟩ := pr
      rw [hct] at hs
      obtain ⟨res, c2, evs, hcb, hids, hbind, hmc, hcm, hfg⟩ := ih (calls + 1)
      refine ⟨(t.id, ap, rs) :: res, c2, Event.modelCall t.id :: evs, ?_, ?_, ?_, ?_, ?_, ?_⟩
      · simp only [classify_batch, hct, hcb]
      · simp [hids]
      · intro x hx
        rcases List.mem_cons.mp hx with rfl | hx'
        · exact hs
        · exact hbind x hx'
      · simp [modelCallIds, hmc]
      · simpa [commitIds] using hcm
      · simpa [fetchGots] using hfg

/-- Committing a batch of results whose ids are distinct ids of pending
rows never fails (for bindable reasons), removes exactly the batch from
the pending set, preserves the id column, records one commit per result,
and leaves every completed row untouched. -/
theorem commit_fold_commits (now : String) :
    ∀ (res : List (String × Json × Json)) (db : Db) (a f : Int) (evs : List Event),
      (db.map (fun r => r.id)).Nodup →
      (∀ x ∈ res, ∃ r ∈ db, r.id = x.1 ∧ r.classification_status = "pending") →
      (res.map (fun x => x.1)).Nodup →
      (∀ x ∈ res, (sqlite_bind_text x.2.2).isOk = true) →
      ∃ db2 a2 f2,
        commit_fold false now res db a f evs =
          (db2, none, a2, f2, evs ++ res.map (fun x => Event.commit x.1)) ∧
        db2.map (fun r => r.id) = db.map (fun r => r.id) ∧
        (pendingRows db2).length = (pendingRows db).length - res.length ∧
        res.length ≤ (pendingRows db).length ∧
        (∀ r ∈ db, r.classification_status = "completed" → r ∈ db2) := by
  intro res
  induction res with
  | nil =>
    intro db a f evs _ _ _ _
    exact ⟨db, a, f, by simp [commit_fold], rfl, by simp, by simp, fun r hr _ => hr⟩
  | cons x res ih =>
    intro db a f evs hnodup hpend hresnodup hbind
    obtain ⟨tid, ap, rs⟩ := x
    have hb := hbind (tid, ap, rs) (List.mem_cons_self _ _)
    cases hrt : sqlite_bind_text rs with
    | error e => rw [hrt] at hb; exact absurd hb (by simp [Except.isOk, Except.toBool])
    | ok rtext =>
      have hex : ∃ r ∈ db, r.id = tid ∧ r.classification_status = "pending" := by
        simpa using hpend (tid, ap, rs) (List.mem_cons_self _ _)
      have hupd := update_classification_pending_count tid (jsonTruthy ap) rtext now db
        hnodup hex
      have hids1 := update_classification_ids tid (jsonTruthy ap) rtext now db
      have htid_notin : ∀ y ∈ res, ¬ y.1 = tid := by
        intro y hy hEq
        have : tid ∈ res.map (fun z => z.1) := hEq ▸ List.mem_map.mpr ⟨y, hy, rfl⟩
        exact (List.nodup_cons.mp hresnodup).1 this
      have hothers :
          ∀ y ∈ res, ∃ r ∈ update_classification tid (jsonTruthy ap) rtext now db,
            r.id = y.1 ∧ r.classification_status = "pending" := by
        intro y hy
        obtain ⟨r, hr, hrid, hrp⟩ := hpend y (List.mem_cons_of_mem _ hy)
        refine ⟨r, ?_, hrid, hrp⟩
        refine update_classification_other_mem tid (jsonTruthy ap) rtext now db r hr ?_
        rw [hrid]
        exact htid_notin y hy
      have hcomp1 :
          ∀ r ∈ db, r.classification_status = "completed" →
            r ∈ update_classification tid (jsonTruthy ap) rtext now db := by
        intro r hr hrc
        refine update_classification_other_mem tid (jsonTruthy ap) rtext now db r hr ?_
        intro hEq
        obtain ⟨r0, hr0, hr0id, hr0p⟩ := hex
        have : r = r0 := by
          have h1 : r.id ∈ db.map (fun z => z.id) := List.mem_map.mpr ⟨r, hr, rfl⟩
          have hinj := List.inj_on_of_nodup_map hnodup
          exact hinj hr hr0 (by rw [hEq, hr0id])
        rw [this, hr0p] at hrc
        exact absurd hrc (by simp)
      obtain ⟨db2, a2, f2, hcf, hids2, hpc2, hle2, hcomp2⟩ :=
        ih (update_classification tid (jsonTruthy ap) rtext now db)
          (if jsonTruthy ap then a + 1 else a) (if jsonTruthy ap then f else f + 1)
          (evs ++ [Event.commit tid])
          (by rw [hids1]; exact hnodup) hothers
          (List.nodup_cons.mp hresnodup).2
          (fun y hy => hbind y (List.mem_cons_of_mem _ hy))
      refine ⟨db2, a2, f2, ?_, ?_, ?_, ?_, ?_⟩
      · simp only [commit_fold, Bool.false_eq_true, if_false, hrt, hcf]
        simp
      · rw [hids2, hids1]
      · rw [hpc2, hupd.1]
        simp only [List.length_cons]
        omega
      · simp only [List.length_cons]
        omega
      · intro r hr hrc
        exact hcomp2 r (hcomp1 r hr hrc) hrc

theorem fetchGots_commitMap (l : List (String × Json × Json)) :
    fetchGots (l.map (fun x => Event.commit x.1)) = [] := by
  induction l with
  | nil => rfl
  | cons y ys ih => simpa [fetchGots] using ih

theorem batchSizes_step (bs rem : Nat) (hbs : 1 ≤ bs) (hrem : 1 ≤ rem) :
    batchSizes bs rem = min bs rem :: batchSizes bs (rem - min bs rem) := by
  obtain ⟨k, rfl⟩ : ∃ k, rem = k + 1 := ⟨rem - 1, by omega⟩
  rw [batchSizes]
  rw [if_neg (by omega)]

/-- The quota-respecting behaviour of the non-dry batch loop: with a
positive batch size, a safe reply stream, unique ids and a pending supply
covering the remaining quota, the loop terminates with no error having
processed exactly the quota, in fetches of `min bs remaining`. -/
theorem run_loop_fuel_quota (oracle : Nat → ModelReply) (bs : Int) (now : String)
    (limit : Int) (hbs : 1 ≤ bs)
    (hsafe : ∀ n, safeReply (oracle n) = true) :
    ∀ (fuel : Nat) (db : Db) (processed a f : Int) (trace : List Event) (calls : Nat),
      (db.map (fun r => r.id)).Nodup →
      processed ≤ limit →
      (limit - processed).toNat ≤ fuel →
      (limit - processed).toNat ≤ (pendingRows db).length →
      (run_loop_fuel oracle bs false now limit fuel db processed a f trace calls).err = none ∧
      (run_loop_fuel oracle bs false now limit fuel db processed a f trace calls).processed =
        limit ∧
      fetchGots
          (run_loop_fuel oracle bs false now limit fuel db processed a f trace calls).trace =
        fetchGots trace ++ batchSizes bs.toNat (limit - processed).toNat := by
  intro fuel
  induction fuel with
  | zero =>
    intro db processed a f trace calls _ hproc hfuel _
    have hEq : processed = limit := by omega
    rw [run_loop_fuel]
    refine ⟨rfl, hEq, ?_⟩
    have h0 : (limit - processed).toNat = 0 := by omega
    rw [h0]
    simp [batchSizes]
  | succ k ih =>
    intro db processed a f trace calls hnodup hproc hfuel hpend
    rw [run_loop_fuel]
    by_cases h : processed < limit
    · rw [if_pos h]
      have hfc0 : (0 : Int) ≤ min bs (limit - processed) := by omega
      have hfcle : min bs (limit - processed) ≤ limit - processed := by omega
      have hfc1 : 1 ≤ min bs (limit - processed) := by omega
      have hlen : (get_pending_tweets (min bs (limit - processed)) db).length =
          (min bs (limit - processed)).toNat := by
        rw [get_pending_length _ _ hfc0]
        omega
      cases htw : get_pending_tweets (min bs (limit - processed)) db with
      | nil => rw [htw] at hlen; simp at hlen; omega
      | cons t0 ts0 =>
        simp only [htw, List.isEmpty_cons, Bool.false_eq_true, if_false]
        obtain ⟨res, c2, evs, hcb, hids, hbind, hmc, hcm, hfg⟩ :=
          classify_batch_safe oracle hsafe (t0 :: ts0) calls
        simp only [hcb]
        have hresnodup : (res.map (fun x => x.1)).Nodup := by
          rw [hids, ← htw]
          exact get_pending_ids_nodup _ db hnodup
        have hrespend : ∀ x ∈ res, ∃ r ∈ db, r.id = x.1 ∧
            r.classification_status = "pending" := by
          intro x hx
          have : x.1 ∈ res.map (fun y => y.1) := List.mem_map.mpr ⟨x, hx, rfl⟩
          rw [hids] at this
          obtain ⟨t, ht, htid⟩ := List.mem_map.mp this
          have hmem := get_pending_mem _ db t (htw ▸ ht)
          exact ⟨t, hmem.1, htid, hmem.2⟩
        obtain ⟨db2, a2, f2, hcf, hids2, hpc2, hle2, _⟩ :=
          commit_fold_commits now res db a f [] hnodup hrespend hresnodup hbind
        simp only [hcf]
        have hreslen : res.length = (t0 :: ts0).length := by
          have := congrArg List.length hids
          simpa using this
        have hlen' : (t0 :: ts0).length = (min bs (limit - processed)).toNat := by
          rw [← htw]; exact hlen
        have hstep := ih db2 (processed + (t0 :: ts0).length) a2 f2
          (trace ++ Event.fetch (min bs (limit - processed)) (t0 :: ts0).length ::
            (evs ++ ([] ++ res.map (fun x => Event.commit x.1)))) c2
          (by rw [hids2]; exact hnodup)
          (by omega)
          (by omega)
          (by rw [hpc2, hreslen, hlen']; omega)
        refine ⟨hstep.1, hstep.2.1, ?_⟩
        rw [hstep.2.2]
        rw [fetchGots_append]
        have hfg2 : fetchGots (Event.fetch (min bs (limit - processed)) (t0 :: ts0).length ::
            (evs ++ ([] ++ res.map (fun x => Event.commit x.1)))) =
            [(t0 :: ts0).length] := by
          simp only [fetchGots, fetchGots_append, hfg, List.nil_append]
          rw [fetchGots_commitMap]
        rw [hfg2]
        have hbatch : batchSizes bs.toNat (limit - processed).toNat =
            (t0 :: ts0).length ::
              batchSizes bs.toNat (limit - (processed + (t0 :: ts0).length)).toNat := by
          have hmin : min bs.toNat (limit - processed).toNat =
              (min bs (limit - processed)).toNat := by omega
          have hrem1 : 1 ≤ (limit - processed).toNat := by omega
          rw [batchSizes_step bs.toNat (limit - processed).toNat (by omega) hrem1]
          rw [hmin, ← hlen']
          have : (limit - (processed + ((t0 :: ts0).length : Int))).toNat =
              (limit - processed).toNat - (t0 :: ts0).length := by omega
          rw [this]
        rw [hbatch]
        simp
    · rw [if_neg h]
      have hEq : processed = limit := by omega
      refine ⟨rfl, hEq, ?_⟩
      have h0 : (limit - processed).toNat = 0 := by omega
      rw [h0]
      simp [batchSizes]

/-- C5: with 17 pending records, maxRecords = 10 and batchSize = 4, a
(non-dry) run with a safe reply stream processes exactly 10 records in
three batches of sizes 4, 4 and 2, each batch fetching
min(batchSize, limit - processed) pending records. -/
theorem c5_batch_quota (db : Db) (oracle : Nat → ModelReply) (now : String)
    (hnodup : (db.map (fun r => r.id)).Nodup)
    (hpend : (get_stats db).pending = 17)
    (hsafe : ∀ n, safeReply (oracle n) = true) :
    (run_classifier true oracle 4 (some 10) false now db).err = none ∧
    (run_classifier true oracle 4 (some 10) false now db).processed = 10 ∧
    fetchGots (run_classifier true oracle 4 (some 10) false now db).trace = [4, 4, 2] := by
  unfold run_classifier
  simp only [Bool.not_true, Bool.false_eq_true, if_false]
  rw [if_neg (by omega)]
  have hlimit : (if (10 : Int) = 0 then ((get_stats db).pending : Int)
      else min 10 ((get_stats db).pending : Int)) = 10 := by
    rw [hpend]
    norm_num
  rw [hlimit]
  unfold run_loop
  have hq := run_loop_fuel_quota oracle 4 now 10 (by omega) hsafe
    ((10 - 0 : Int)).toNat db 0 0 0 [Event.statsQuery (get_stats db)] 0
    hnodup (by omega) (by omega)
    (by
      have : (pendingRows db).length = 17 := hpend
      omega)
  refine ⟨hq.1, hq.2.1, ?_⟩
  rw [hq.2.2]
  have hbatches : batchSizes (4 : Int).toNat ((10 : Int) - 0).toNat = [4, 4, 2] := by
    show batchSizes 4 10 = [4, 4, 2]
    rw [batchSizes_step 4 10 (by omega) (by omega)]
    norm_num
    rw [batchSizes_step 4 6 (by omega) (by omega)]
    norm_num
    rw [batchSizes_step 4 2 (by omega) (by omega)]
    norm_num
    rw [batchSizes]
  rw [hbatches]
  rfl

/-- C5 (witness): a concrete 17-record store with a well-formed reply
stream. -/
theorem c5_batch_quota_witness :
    (run_classifier true (fun _ => ModelReply.ok goodReply) 4 (some 10) false "now"
        ((List.range 17).map (fun n => testRow ("t" ++ toString n)))).err = none ∧
    (run_classifier true (fun _ => ModelReply.ok goodReply) 4 (some 10) false "now"
        ((List.range 17).map (fun n => testRow ("t" ++ toString n)))).processed = 10 ∧
    fetchGots (run_classifier true (fun _ => ModelReply.ok goodReply) 4 (some 10) false "now"
        ((List.range 17).map (fun n => testRow ("t" ++ toString n)))).trace = [4, 4, 2] :=
  c5_batch_quota ((List.range 17).map (fun n => testRow ("t" ++ toString n)))
    (fun _ => ModelReply.ok goodReply) "now" (by decide) (by decide) (fun _ => by rfl)

/-! ## C10: a dry run re-fetches the same pending head each batch -/

theorem dryCalls_step (ids : List String) (bs rem : Nat) (hbs : 1 ≤ bs) (hrem : 1 ≤ rem) :
    dryCalls ids bs rem = ids.take (min bs rem) ++ dryCalls ids bs (rem - min bs rem) := by
  obtain ⟨k, rfl⟩ : ∃ k, rem = k + 1 := ⟨rem - 1, by omega⟩
  rw [dryCalls]
  rw [if_neg (by omega)]

theorem dryCalls_subset (ids : List String) (bs : Nat) (hbs : 1 ≤ bs) :
    ∀ (rem : Nat), ∀ x ∈ dryCalls ids bs rem, x ∈ ids.take bs := by
  intro rem
  induction rem using Nat.strong_induction_on with
  | _ rem ih =>
    match rem with
    | 0 =>
      intro x hx
      rw [dryCalls] at hx
      exact absurd hx (by simp)
    | r + 1 =>
      intro x hx
      rw [dryCalls] at hx
      rw [if_neg (by omega)] at hx
      rcases List.mem_append.mp hx with h1 | h2
      · have hsub : ids.take (min bs (r + 1)) = (ids.take bs).take (min bs (r + 1)) := by
          rw [List.take_take]
          congr 1
          omega
        rw [hsub] at h1
        exact List.take_subset _ _ h1
      · exact ih _ (by omega) x h2

/-- The dry batch loop terminates at the quota with no error, leaves the
table untouched, and issues exactly the `dryCalls` model-call sequence
over the fixed pending ordering. -/
theorem run_loop_fuel_dry_calls (oracle : Nat → ModelReply) (bs : Int) (now : String)
    (limit : Int) (hbs : 1 ≤ bs)
    (hsafe : ∀ n, safeReply (oracle n) = true) :
    ∀ (fuel : Nat) (db : Db) (processed a f : Int) (trace : List Event) (calls : Nat),
      processed ≤ limit →
      (limit - processed).toNat ≤ fuel →
      (limit - processed).toNat ≤ (pendingRows db).length →
      (run_loop_fuel oracle bs true now limit fuel db processed a f trace calls).err = none ∧
      (run_loop_fuel oracle bs true now limit fuel db processed a f trace calls).processed =
        limit ∧
      modelCallIds
          (run_loop_fuel oracle bs true now limit fuel db processed a f trace calls).trace =
        modelCallIds trace ++
          dryCalls ((sortDescByCaptured (pendingRows db)).map (fun r => r.id)) bs.toNat
            (limit - processed).toNat := by
  intro fuel
  induction fuel with
  | zero =>
    intro db processed a f trace calls hproc hfuel _
    have h0 : (limit - processed).toNat = 0 := by omega
    rw [run_loop_fuel]
    refine ⟨rfl, ?_, ?_⟩
    · show processed = limit
      omega
    · rw [h0]
      simp [dryCalls]
  | succ k ih =>
    intro db processed a f trace calls hproc hfuel hpend
    rw [run_loop_fuel]
    by_cases h : processed < limit
    · rw [if_pos h]
      have hfc0 : (0 : Int) ≤ min bs (limit - processed) := by omega
      have hfcle : min bs (limit - processed) ≤ limit - processed := by omega
      have hfc1 : 1 ≤ min bs (limit - processed) := by omega
      have hlen : (get_pending_tweets (min bs (limit - processed)) db).length =
          (min bs (limit - processed)).toNat := by
        rw [get_pending_length _ _ hfc0]
        omega
      have htake : get_pending_tweets (min bs (limit - processed)) db =
          (sortDescByCaptured (pendingRows db)).take (min bs (limit - processed)).toNat := by
        unfold get_pending_tweets
        rw [if_neg (by omega)]
        rfl
      cases htw : get_pending_tweets (min bs (limit - processed)) db with
      | nil => rw [htw] at hlen; simp at hlen; omega
      | cons t0 ts0 =>
        simp only [htw, List.isEmpty_cons, Bool.false_eq_true, if_false]
        obtain ⟨res, c2, evs, hcb, hids, hbind, hmc, hcm, hfg⟩ :=
          classify_batch_safe oracle hsafe (t0 :: ts0) calls
        simp only [hcb]
        obtain ⟨a2, f2, hcf⟩ := commit_fold_dry now res db a f []
        simp only [hcf]
        have hlen' : (t0 :: ts0).length = (min bs (limit - processed)).toNat := by
          rw [← htw]; exact hlen
        have hstep := ih db (processed + (t0 :: ts0).length) a2 f2
          (trace ++ Event.fetch (min bs (limit - processed)) (t0 :: ts0).length ::
            (evs ++ [])) c2
          (by omega) (by omega) (by omega)
        refine ⟨hstep.1, hstep.2.1, ?_⟩
        rw [hstep.2.2]
        rw [modelCallIds_append]
        have hmc2 : modelCallIds (Event.fetch (min bs (limit - processed))
            (t0 :: ts0).length :: (evs ++ [])) = (t0 :: ts0).map (fun r => r.id) := by
          simp only [modelCallIds, List.append_nil]
          exact hmc
        rw [hmc2]
        have hminEq : min bs.toNat (limit - processed).toNat =
            (min bs (limit - processed)).toNat := by omega
        have hcall : (t0 :: ts0).map (fun r => r.id) =
            ((sortDescByCaptured (pendingRows db)).map (fun r => r.id)).take
              (min bs.toNat (limit - processed).toNat) := by
          rw [← List.map_take, hminEq, ← htake, htw]
        have hdc : dryCalls ((sortDescByCaptured (pendingRows db)).map (fun r => r.id))
              bs.toNat (limit - processed).toNat =
            ((sortDescByCaptured (pendingRows db)).map (fun r => r.id)).take
              (min bs.toNat (limit - processed).toNat) ++
            dryCalls ((sortDescByCaptured (pendingRows db)).map (fun r => r.id))
              bs.toNat (limit - (processed + (t0 :: ts0).length)).toNat := by
          rw [dryCalls_step _ _ _ (by omega) (by omega)]
          congr 2
          omega
        rw [hdc, ← hcall]
        simp
    · rw [if_neg h]
      have h0 : (limit - processed).toNat = 0 := by omega
      refine ⟨rfl, ?_, ?_⟩
      · show processed = limit
        omega
      · rw [h0]
        simp [dryCalls]

/-- C10: in a single dry run whose limit (the whole pending count, maxRecords
unset) exceeds batchSize, every batch re-fetches the head of the same
unchanged pending set: the store is untouched, the run still reports the
full pending count as processed, some record is sent to the model at least
twice, and the distinct records touched are at most batchSize — strictly
fewer than the reported processed count. -/
theorem c10_dry_run_reclassifies (db : Db) (oracle : Nat → ModelReply) (bs : Int)
    (now : String) (hbs : 1 ≤ bs)
    (hbslt : bs < ((get_stats db).pending : Int))
    (hsafe : ∀ n, safeReply (oracle n) = true) :
    (run_classifier true oracle bs none true now db).db = db ∧
    (run_classifier true oracle bs none true now db).err = none ∧
    (run_classifier true oracle bs none true now db).processed =
      ((get_stats db).pending : Int) ∧
    (∃ tid, 2 ≤ (modelCallIds (run_classifier true oracle bs none true now db).trace).count tid) ∧
    (modelCallIds (run_classifier true oracle bs none true now db).trace).dedup.length ≤
      bs.toNat ∧
    (bs : Int) < (run_classifier true oracle bs none true now db).processed := by
  have hP : (pendingRows db).length = (get_stats db).pending := rfl
  unfold run_classifier
  simp only [Bool.not_true, Bool.false_eq_true, if_false]
  rw [if_neg (by omega)]
  unfold run_loop
  have hq := run_loop_fuel_dry_calls oracle bs now ((get_stats db).pending : Int) hbs hsafe
    (((get_stats db).pending : Int) - 0).toNat db 0 0 0 [Event.statsQuery (get_stats db)] 0
    (by omega) (by omega) (by omega)
  have hdb := run_loop_fuel_dry oracle bs now ((get_stats db).pending : Int)
    (((get_stats db).pending : Int) - 0).toNat db 0 0 0 [Event.statsQuery (get_stats db)] 0
  refine ⟨hdb.1, hq.1, hq.2.1, ?_, ?_, ?_⟩
  · -- some id is called at least twice
    rw [hq.2.2]
    have hids_len : ((sortDescByCaptured (pendingRows db)).map (fun r => r.id)).length =
        (get_stats db).pending := by
      rw [List.length_map, sortDescByCaptured_length, hP]
    cases hcons : (sortDescByCaptured (pendingRows db)).map (fun r => r.id) with
    | nil =>
      rw [hcons] at hids_len
      simp at hids_len
      omega
    | cons h0 tl =>
      refine ⟨h0, ?_⟩
      have hrem : ((((get_stats db).pending : Int)) - 0).toNat = (get_stats db).pending := by
        omega
      rw [hrem]
      have hbs1 : 1 ≤ bs.toNat := by omega
      have hP1 : 1 ≤ (get_stats db).pending := by omega
      rw [dryCalls_step _ _ _ hbs1 hP1]
      have hmin1 : 1 ≤ min bs.toNat (get_stats db).pending := by omega
      have hrem2 : 1 ≤ (get_stats db).pending - min bs.toNat (get_stats db).pending := by
        omega
      rw [dryCalls_step _ _ _ hbs1 hrem2]
      obtain ⟨j1, hj1⟩ : ∃ j, min bs.toNat (get_stats db).pending = j + 1 :=
        ⟨min bs.toNat (get_stats db).pending - 1, by omega⟩
      obtain ⟨j2, hj2⟩ : ∃ j, min bs.toNat
          ((get_stats db).pending - min bs.toNat (get_stats db).pending) = j + 1 :=
        ⟨min bs.toNat ((get_stats db).pending - min bs.toNat (get_stats db).pending) - 1,
          by omega⟩
      rw [hj2, hj1]
      simp only [List.take_succ_cons, List.count_append, List.count_cons_self]
      omega
  · -- distinct ids bounded by the batch size
    rw [hq.2.2]
    have hsub : ∀ x ∈ modelCallIds [Event.statsQuery (get_stats db)] ++
        dryCalls ((sortDescByCaptured (pendingRows db)).map (fun r => r.id)) bs.toNat
          ((((get_stats db).pending : Int)) - 0).toNat,
        x ∈ ((sortDescByCaptured (pendingRows db)).map (fun r => r.id)).take bs.toNat := by
      intro x hx
      rcases List.mem_append.mp hx with h1 | h2
      · exact absurd h1 (by simp [modelCallIds])
      · exact dryCalls_subset _ _ (by omega) _ x h2
    have hnd : (modelCallIds [Event.statsQuery (get_stats db)] ++
        dryCalls ((sortDescByCaptured (pendingRows db)).map (fun r => r.id)) bs.toNat
          ((((get_stats db).pending : Int)) - 0).toNat).dedup.length ≤
        (((sortDescByCaptured (pendingRows db)).map (fun r => r.id)).take bs.toNat).length := by
      refine List.Subperm.length_le ?_
      refine List.subperm_of_subset (List.nodup_dedup _) ?_
      intro x hx
      exact hsub x (List.dedup_subset _ hx)
    refine le_trans hnd ?_
    rw [List.length_take]
    omega
  · rw [hq.2.1]
    exact hbslt

/-- C10 (witness): three pending records, batch size two, dry run — the
head record is classified twice and only two distinct records are touched
while three are reported processed. -/
theorem c10_dry_run_reclassifies_witness :
    (run_classifier true (fun _ => ModelReply.ok goodReply) 2 none true "now"
        ((List.range 3).map (fun n => testRow ("t" ++ toString n)))).db =
      (List.range 3).map (fun n => testRow ("t" ++ toString n)) ∧
    (run_classifier true (fun _ => ModelReply.ok goodReply) 2 none true "now"
        ((List.range 3).map (fun n => testRow ("t" ++ toString n)))).err = none ∧
    (run_classifier true (fun _ => ModelReply.ok goodReply) 2 none true "now"
        ((List.range 3).map (fun n => testRow ("t" ++ toString n)))).processed =
      ((get_stats ((List.range 3).map (fun n => testRow ("t" ++ toString n)))).pending : Int) ∧
    (∃ tid, 2 ≤ (modelCallIds (run_classifier true (fun _ => ModelReply.ok goodReply) 2 none
        true "now" ((List.range 3).map (fun n => testRow ("t" ++ toString n)))).trace).count tid) ∧
    (modelCallIds (run_classifier true (fun _ => ModelReply.ok goodReply) 2 none true "now"
        ((List.range 3).map (fun n => testRow ("t" ++ toString n)))).trace).dedup.length ≤
      (2 : Int).toNat ∧
    ((2 : Int)) < (run_classifier true (fun _ => ModelReply.ok goodReply) 2 none true "now"
        ((List.range 3).map (fun n => testRow ("t" ++ toString n)))).processed :=
  c10_dry_run_reclassifies ((List.range 3).map (fun n => testRow ("t" ++ toString n)))
    (fun _ => ModelReply.ok goodReply) 2 "now" (by omega) (by decide) (fun _ => by rfl)

/-! ## C9: pending → completed is one-directional and terminal -/

theorem storeLoop_mono (now : String) :
    ∀ (ts : List TweetInput) (db : Db) (i d : Nat) (db' : Db) (i' d' : Nat),
      storeLoop now ts db i d = Except.ok (db', i', d') →
      ∀ r ∈ db, r ∈ db' := by
  intro ts
  induction ts with
  | nil =>
    intro db i d db' i' d' heq
    rw [storeLoop] at heq
    simp only [Except.ok.injEq, Prod.mk.injEq] at heq
    rw [← heq.1]
    exact fun r hr => hr
  | cons t ts ih =>
    intro db i d db' i' d' heq
    cases hid : t.id with
    | none => rw [storeLoop, hid] at heq; exact absurd heq (by simp)
    | some tid =>
      cases htxt : t.text with
      | none => rw [storeLoop, hid, htxt] at heq; exact absurd heq (by simp)
      | some ttext =>
        simp only [storeLoop, hid, htxt] at heq
        by_cases hdup : (db.any fun r => r.id = tid) = true
        · rw [if_pos hdup] at heq
          exact ih _ _ _ _ _ _ heq
        · rw [if_neg hdup] at heq
          intro r hr
          exact ih _ _ _ _ _ _ heq r (List.mem_append.mpr (Or.inl hr))

/-- Ingestion never modifies or removes an existing row. -/
theorem store_tweets_preserves (now : String) (ts : List TweetInput) (db : Db) :
    ∀ r ∈ db, r ∈ (store_tweets now ts db).1 := by
  unfold store_tweets
  split
  · exact fun r hr => hr
  · split
    · next db' ins dup heq => exact storeLoop_mono now ts db 0 0 db' ins dup heq
    · exact fun r hr => hr

/-- Every row of an UPDATE's output is an original row or a completed one:
no operation ever moves a record back to pending. -/
theorem update_classification_one_directional (tid : String) (ap : Bool)
    (rs : Option String) (now : String) (db : Db) :
    ∀ r' ∈ update_classification tid ap rs now db,
      r' ∈ db ∨ r'.classification_status = "completed" := by
  intro r' hr'
  rcases List.mem_map.mp hr' with ⟨r0, hr0, hmap⟩
  by_cases hc : r0.id = tid
  · right
    rw [← hmap]
    simp [hc]
  · left
    rw [← hmap]
    simp [hc]
    exact hr0

/-- A successful batch classification returns exactly the fetched ids. -/
theorem classify_batch_ok_ids (oracle : Nat → ModelReply) :
    ∀ (tweets : List TweetRow) (calls : Nat) res c2 evs,
      classify_batch oracle calls tweets = Except.ok (res, c2, evs) →
      res.map (fun x => x.1) = tweets.map (fun t => t.id) := by
  intro tweets
  induction tweets with
  | nil =>
    intro calls res c2 evs heq
    rw [classify_batch] at heq
    simp only [Except.ok.injEq, Prod.mk.injEq] at heq
    rw [← heq.1]
    rfl
  | cons t ts ih =>
    intro calls res c2 evs heq
    rw [classify_batch] at heq
    cases hct : classify_tweet (oracle calls) with
    | error e => rw [hct] at heq; exact absurd heq (by simp)
    | ok pr =>
      obtain ⟨ap, rs⟩ := pr
      rw [hct] at heq
      cases hcb : classify_batch oracle (calls + 1) ts with
      | error tr =>
        obtain ⟨e2, cx, evsx⟩ := tr
        rw [hcb] at heq
        exact absurd heq (by simp)
      | ok tr =>
        obtain ⟨resx, cx, evsx⟩ := tr
        rw [hcb] at heq
        simp only [Except.ok.injEq, Prod.mk.injEq] at heq
        rw [← heq.1]
        simp only [List.map_cons]
        rw [ih _ _ _ _ hcb]

/-- The commit loop never touches a row whose id is not among its results:
such a row survives with the id column unchanged, wherever the loop stops. -/
theorem commit_fold_preserves (now : String) (r : TweetRow) :
    ∀ (res : List (String × Json × Json)) (db : Db) (a f : Int) (evs : List Event),
      (∀ x ∈ res, ¬ x.1 = r.id) →
      r ∈ db →
      r ∈ (commit_fold false now res db a f evs).1 ∧
      (commit_fold false now res db a f evs).1.map (fun x => x.id) =
        db.map (fun x => x.id) := by
  intro res
  induction res with
  | nil => intro db a f evs _ hr; exact ⟨hr, rfl⟩
  | cons x res ih =>
    intro db a f evs hne hr
    obtain ⟨tid, ap, rs⟩ := x
    have hne0 : ¬ tid = r.id := hne (tid, ap, rs) (List.mem_cons_self _ _)
    simp only [commit_fold, Bool.false_eq_true, if_false]
    cases hrt : sqlite_bind_text rs with
    | error e => exact ⟨hr, rfl⟩
    | ok rtext =>
      have hrmem : r ∈ update_classification tid (jsonTruthy ap) rtext now db :=
        update_classification_other_mem tid (jsonTruthy ap) rtext now db r hr
          (fun hEq => hne0 hEq.symm)
      have := ih (update_classification tid (jsonTruthy ap) rtext now db)
        (if jsonTruthy ap then a + 1 else a) (if jsonTruthy ap then f else f + 1)
        (evs ++ [Event.commit tid])
        (fun y hy => hne y (List.mem_cons_of_mem _ hy)) hrmem
      refine ⟨this.1, ?_⟩
      rw [this.2, update_classification_ids]

/-- Whatever the replies and wherever the run stops, a completed row is
never touched again by the batch loop, and the id column is preserved. -/
theorem run_loop_fuel_preserves_completed (oracle : Nat → ModelReply) (bs : Int)
    (dry : Bool) (now : String) (limit : Int) (r : TweetRow)
    (hc : r.classification_status = "completed") :
    ∀ (fuel : Nat) (db : Db) (processed a f : Int) (trace : List Event) (calls : Nat),
      (db.map (fun x => x.id)).Nodup →
      r ∈ db →
      r ∈ (run_loop_fuel oracle bs dry now limit fuel db processed a f trace calls).db ∧
      (run_loop_fuel oracle bs dry now limit fuel db processed a f trace calls).db.map
          (fun x => x.id) = db.map (fun x => x.id) := by
  intro fuel
  induction fuel with
  | zero => intro db processed a f trace calls _ hr; exact ⟨hr, rfl⟩
  | succ k ih =>
    intro db processed a f trace calls hnodup hr
    rw [run_loop_fuel]
    by_cases h : processed < limit
    · rw [if_pos h]
      cases htw : get_pending_tweets (min bs (limit - processed)) db with
      | nil =>
        simp only [htw, List.isEmpty_nil, if_true]
        exact ⟨hr, trivial⟩
      | cons t0 ts0 =>
        simp only [htw, List.isEmpty_cons, Bool.false_eq_true, if_false]
        cases hcb : classify_batch oracle calls (t0 :: ts0) with
        | error tr =>
          obtain ⟨e2, c2, evs⟩ := tr
          simp only [hcb]
          exact ⟨hr, trivial⟩
        | ok tr =>
          obtain ⟨res, c2, evs⟩ := tr
          simp only [hcb]
          have hids := classify_batch_ok_ids oracle (t0 :: ts0) calls res c2 evs hcb
          have hne : ∀ x ∈ res, ¬ x.1 = r.id := by
            intro x hx hEq
            have hx1 : x.1 ∈ res.map (fun y => y.1) := List.mem_map.mpr ⟨x, hx, rfl⟩
            rw [hids] at hx1
            obtain ⟨t, ht, htid⟩ := List.mem_map.mp hx1
            have hmem := get_pending_mem _ db t (htw ▸ ht)
            have hinj := List.inj_on_of_nodup_map hnodup
            have : t = r := hinj hmem.1 hr (by rw [htid, hEq])
            rw [this, hc] at hmem
            exact absurd hmem.2 (by simp)
          have hgen : r ∈ (commit_fold dry now res db a f []).1 ∧
              (commit_fold dry now res db a f []).1.map (fun x => x.id) =
                db.map (fun x => x.id) := by
            cases dry with
            | true =>
              obtain ⟨a2, f2, hcf⟩ := commit_fold_dry now res db a f []
              rw [hcf]
              exact ⟨hr, rfl⟩
            | false => exact commit_fold_preserves now r res db a f [] hne hr
          cases hcf : commit_fold dry now res db a f [] with
          | mk db2 rest =>
            obtain ⟨errOpt, a2, f2, evs2⟩ := rest
            rw [hcf] at hgen
            simp only at hgen
            cases herr : errOpt with
            | some e =>
              rw [herr] at hcf
              simp only [hcf]
              exact hgen
            | none =>
              rw [herr] at hcf
              simp only [hcf]
              have hnodup2 : (db2.map (fun x => x.id)).Nodup := by
                rw [hgen.2]; exact hnodup
              have hih := ih db2 (processed + (t0 :: ts0).length) a2 f2
                (trace ++ Event.fetch (min bs (limit - processed)) (t0 :: ts0).length ::
                  (evs ++ evs2)) c2 hnodup2 hgen.1
              exact ⟨hih.1, hih.2.trans hgen.2⟩
    · rw [if_neg h]
      exact ⟨hr, rfl⟩

/-- C9: the pending → completed transition is one-directional and
terminal.  A completed record survives, bit-identical, any ingestion call
and any orchestrator run (so its result, reason and classified_at are
never changed again and it never returns to pending — there is no
re-classification path), and no row of a commit's output ever moves back
to pending: every row is an original row or a completed one. -/
theorem c9_completed_terminal (db : Db) (r : TweetRow)
    (hnodup : (db.map (fun x => x.id)).Nodup)
    (hr : r ∈ db) (hc : r.classification_status = "completed") :
    (∀ now ts, r ∈ (store_tweets now ts db).1) ∧
    (∀ hk oracle bs max_tweets dry now,
      r ∈ (run_classifier hk oracle bs max_tweets dry now db).db) ∧
    (∀ tid ap rs now r', r' ∈ update_classification tid ap rs now db →
      r' ∈ db ∨ r'.classification_status = "completed") := by
  refine ⟨fun now ts => store_tweets_preserves now ts db r hr, ?_, ?_⟩
  · intro hk oracle bs max_tweets dry now
    unfold run_classifier
    cases hk with
    | false => exact hr
    | true =>
      simp only [Bool.not_true, Bool.false_eq_true, if_false]
      by_cases hp : (get_stats db).pending = 0
      · simp only [hp, if_true]
        exact hr
      · simp only [hp, if_false]
        unfold run_loop
        exact (run_loop_fuel_preserves_completed oracle bs dry now _ r hc _ db 0 0 0
          [Event.statsQuery (get_stats db)] 0 hnodup hr).1
  · intro tid ap rs now r' hr'
    exact update_classification_one_directional tid ap rs now db r' hr'

/-- C9 (witness): a completed record in a two-record store survives an
ingestion call and a full classifier run. -/
theorem c9_completed_terminal_witness :
    (∀ now ts, { testRow "a" with
        classification_status := "completed"
        classification_result := some 1
        classification_reason := some "ok"
        classified_at := some "n1" } ∈
      (store_tweets now ts [{ testRow "a" with
        classification_status := "completed"
        classification_result := some 1
        classification_reason := some "ok"
        classified_at := some "n1" }, testRow "b"]).1) ∧
    (∀ hk oracle bs max_tweets dry now,
      { testRow "a" with
        classification_status := "completed"
        classification_result := some 1
        classification_reason := some "ok"
        classified_at := some "n1" } ∈
      (run_classifier hk oracle bs max_tweets dry now [{ testRow "a" with
        classification_status := "completed"
        classification_result := some 1
        classification_reason := some "ok"
        classified_at := some "n1" }, testRow "b"]).db) ∧
    (∀ tid ap rs now r', r' ∈ update_classification tid ap rs now [{ testRow "a" with
        classification_status := "completed"
        classification_result := some 1
        classification_reason := some "ok"
        classified_at := some "n1" }, testRow "b"] →
      r' ∈ [{ testRow "a" with
        classification_status := "completed"
        classification_result := some 1
        classification_reason := some "ok"
        classified_at := some "n1" }, testRow "b"] ∨
      r'.classification_status = "completed") :=
  c9_completed_terminal _ _ (by decide) (by decide) rfl

end Aerie
